import Mathlib

/-!
# xsim: a verification development

A shallow embedding of parts of the xsim discrete-event simulation engine
(event priorities, event ordering, the priority-bucketed signal, block-item
sorting, shifting-bottleneck comparison, resource allocation, out-event
cancellation and the cycle-count failure) together with theorems about them.

Simulation time (`simtime`, a C++ `double`) is kept abstract: the definitions
are generic in a linearly ordered type `T` (with the group structure where the
code adds or subtracts times), so that nothing depends on rounding.
-/

namespace xsim

/-! ## common.h : event priorities -/

def PRIORITY_NOW : Int := -1
def PRIORITY_RESET_STATS : Int := 0
def PRIORITY_SHIFT_CALENDAR_START : Int := 1
def PRIORITY_OUT_UNBLOCKED : Int := 2
def PRIORITY_SHIFT : Int := 3
def PRIORITY_STARTNEWBATCH : Int := 4
def PRIORITY_TAKTCOMPLETE_UNBLOCKED : Int := 4
def PRIORITY_DISRUPTION_BEGIN_PROCESSING : Int := 4
def PRIORITY_DISRUPTION_BEGIN : Int := 5
def PRIORITY_BREAK : Int := 4
def PRIORITY_CONVEYOR_OPEN : Int := 6
def PRIORITY_UPDATE_CONVEYOR : Int := 2
def PRIORITY_OUT : Int := 5
def PRIORITY_REQUEST_RESOURCES : Int := 6
def PRIORITY_RESOURCE_READY : Int := 6
def PRIORITY_CREATEMU : Int := 5
def PRIORITY_CREATEDEMAND : Int := 3
def PRIORITY_SETUP : Int := 5
def PRIORITY_DISASSEMBLY : Int := 5
def PRIORITY_ASSEMBLY : Int := 5
def PRIORITY_DISRUPTION_END : Int := 6
def PRIORITY_TAKTCOMPLETE : Int := 7
def PRIORITY_ENTRYTIMEOUT : Int := 7
def PRIORITY_TRIGGERSYNCHRONIZEDEXITS : Int := 7
def PRIORITY_ANIMATE_CONVEYOR : Int := 0
def PRIORITY_TIMECALLBACK : Int := 8

/-- The rows of the priority table of the specification (section 6): each row
is a priority value with the constants of common.h listed for it. -/
def priorityTable : List (Int × List Int) :=
  [ (-1, [PRIORITY_NOW]),
    (0, [PRIORITY_RESET_STATS, PRIORITY_ANIMATE_CONVEYOR]),
    (1, [PRIORITY_SHIFT_CALENDAR_START]),
    (2, [PRIORITY_OUT_UNBLOCKED, PRIORITY_UPDATE_CONVEYOR]),
    (3, [PRIORITY_SHIFT, PRIORITY_CREATEDEMAND]),
    (4, [PRIORITY_STARTNEWBATCH, PRIORITY_TAKTCOMPLETE_UNBLOCKED,
         PRIORITY_DISRUPTION_BEGIN_PROCESSING, PRIORITY_BREAK]),
    (5, [PRIORITY_DISRUPTION_BEGIN, PRIORITY_OUT, PRIORITY_CREATEMU, PRIORITY_SETUP,
         PRIORITY_DISASSEMBLY, PRIORITY_ASSEMBLY]),
    (6, [PRIORITY_CONVEYOR_OPEN, PRIORITY_REQUEST_RESOURCES, PRIORITY_RESOURCE_READY,
         PRIORITY_DISRUPTION_END]),
    (7, [PRIORITY_TAKTCOMPLETE, PRIORITY_ENTRYTIMEOUT, PRIORITY_TRIGGERSYNCHRONIZEDEXITS]),
    (8, [PRIORITY_TIMECALLBACK]) ]

/-! ## event.h : the event record -/

/-- The data members of `Event` (event.h). The intrusive `next_`/`prev_` links
are represented by the position of the event in the pending list; `id` stands
for the identity (address) of the event object. -/
structure Event (T : Type) where
  id : Nat
  priority_ : Int
  sub_priority_ : Int
  breakpoint_ : Bool
  breakpoint_stopped_ : Bool
  time_ : T
deriving DecidableEq, Repr

/-- The function `Event::init(priority, sub_priority)` (event.h). -/
def Event.init {T : Type} (e : Event T) (priority sub_priority : Int) : Event T :=
  { e with priority_ := priority, sub_priority_ := sub_priority, breakpoint_ := false }

/-- The constructor `Event::Event(int priority)`: the sub priority is 0. The time is the value
the event carries until it is scheduled. -/
def Event.new {T : Type} (id : Nat) (priority : Int) (time : T) : Event T :=
  Event.init ⟨id, priority, 0, false, false, time⟩ priority 0

/-- The constructor `Event::Event(int priority, int sub_priority)`. -/
def Event.newSub {T : Type} (id : Nat) (priority sub_priority : Int) (time : T) : Event T :=
  Event.init ⟨id, priority, sub_priority, false, false, time⟩ priority sub_priority

/-- The constructor `EventOut::EventOut(entity, departure, destination = 0, priority = PRIORITY_OUT)`
with the default priority (eventout.h). -/
def EventOut.default {T : Type} (id : Nat) (time : T) : Event T :=
  Event.new id PRIORITY_OUT time

/-- The constructor `EventSetupResourceReady::EventSetupResourceReady(..., priority = PRIORITY_RESOURCE_READY)`
with the default priority (eventsetupresourceready.h); `EventRepairResourceReady`
has the same default. -/
def EventSetupResourceReady.default {T : Type} (id : Nat) (time : T) : Event T :=
  Event.new id PRIORITY_RESOURCE_READY time

/-- The ordering rule documented at `Event::init` (event.h): the priority
decides the order of events that occur at the same simulation time, and a lower
priority event occurs before a higher priority event. -/
def Event.occursBefore {T : Type} [LinearOrder T] (a b : Event T) : Prop :=
  a.time_ < b.time_ ∨ (a.time_ = b.time_ ∧ a.priority_ < b.priority_)

instance {T : Type} [LinearOrder T] (a b : Event T) : Decidable (a.occursBefore b) := by
  unfold Event.occursBefore; infer_instance

/-! ## enterlogic.h : block items -/

/-- The class `BlockItem` (enterlogic.h); `node` and `entity` are object identities. -/
structure BlockItem (T : Type) where
  node : Nat
  entity : Nat
  time : T
  sequence : Nat
  sucessor_order : Int
  exits : Int
deriving DecidableEq, Repr

/-- The comparison `BlockItemSorter::operator()` (enterlogic.h). -/
def BlockItemSorter {T : Type} [LinearOrder T] (item1 item2 : BlockItem T) : Bool :=
  if item1.time < item2.time then true
  else if item1.time = item2.time ∧ item1.sucessor_order < item2.sucessor_order then true
  else if item1.time = item2.time ∧ item1.sucessor_order = item2.sucessor_order ∧
      item1.sequence < item2.sequence then true
  else false

/-- The sort key of a block item: start-blocked time, successor order,
insertion sequence, ordered lexicographically. -/
def BlockItem.key {T : Type} (a : BlockItem T) : Lex (T × Lex (Int × Nat)) :=
  toLex (a.time, toLex (a.sucessor_order, a.sequence))

/-! ## common.h : shifting bottleneck -/

/-- The struct `ShiftingBottleneck` (common.h). -/
structure ShiftingBottleneck (T : Type) where
  sole_ : T
  shifting_ : T
deriving DecidableEq, Repr

/-- The comparison `ShiftingBottleneck::operator>` (common.h). -/
def ShiftingBottleneck.gt {T : Type} [LinearOrder T] [Add T]
    (self right : ShiftingBottleneck T) : Bool :=
  if self.sole_ + self.shifting_ > right.sole_ + right.shifting_ then true else false

/-! ## prioritysignal.h : the priority-bucketed signal

`Signal<RT(Args...)>` is `Nano::Signal` of the third-party nano-signal-slot
library: it is represented by the list of the handlers connected to it, which
`fire` invokes one after the other. A handler is identified by a number; what a
handler does to the priority signal while it runs is a list of actions. -/

/-- A call a handler makes on the priority signal it is connected to. -/
inductive SignalAction where
  | connect (handler : Nat) (priority : Int)
  | disconnect (handler : Nat) (priority : Int)
deriving DecidableEq, Repr

/-- The least `int`, `std::numeric_limits<int>::lowest()`. -/
def INT_LOWEST : Int := -2147483648

/-- The number of values of type `int`: a `std::map<int, ...>` has at most that
many entries, so an in-order traversal takes at most that many steps. -/
def INT_VALUES : Nat := 4294967296

/-- The data members of `PrioritySignal` (prioritysignal.h). `signals_`, a
`std::map<int, Signal>`, is an association list from priority to bucket. -/
structure PrioritySignal where
  signals_ : List (Int × List Nat)
  firing_ : Bool
  current_priority_ : Int
deriving DecidableEq, Repr

/-- The constructor `PrioritySignal::PrioritySignal()`. -/
def PrioritySignal.new : PrioritySignal :=
  { signals_ := [], firing_ := false, current_priority_ := INT_LOWEST }

/-- The bucket `signals_[priority]` as a value (empty when the key is absent). -/
def bucketAt (m : List (Int × List Nat)) (priority : Int) : List Nat :=
  (m.lookup priority).getD []

/-- The assignment `signals_[priority] = bucket`: `operator[]` creates the entry when
the key is absent. -/
def setBucket (m : List (Int × List Nat)) (priority : Int) (bucket : List Nat) :
    List (Int × List Nat) :=
  if m.any (fun kv => kv.1 == priority) then
    m.map (fun kv => if kv.1 = priority then (priority, bucket) else kv)
  else m ++ [(priority, bucket)]

/-- The function `PrioritySignal::connect(instance, priority)`: the returned flag and the
signal afterwards. -/
def PrioritySignal.connect (s : PrioritySignal) (handler : Nat) (priority : Int) :
    Bool × PrioritySignal :=
  if s.firing_ = true ∧ priority ≤ s.current_priority_ then (false, s)
  else
    let bucket := bucketAt s.signals_ priority ++ [handler]
    (true, { s with signals_ := setBucket s.signals_ priority bucket })

/-- The function `PrioritySignal::disconnect(instance, priority)`: the returned flag and the
signal afterwards. -/
def PrioritySignal.disconnect (s : PrioritySignal) (handler : Nat) (priority : Int) :
    Bool × PrioritySignal :=
  if s.firing_ = true ∧ priority = s.current_priority_ then (false, s)
  else
    let bucket := (bucketAt s.signals_ priority).erase handler
    (true, { s with signals_ := setBucket s.signals_ priority bucket })

/-- The least element of a list of keys. -/
def minKey : List Int → Option Int
  | [] => none
  | k :: ks =>
    match minKey ks with
    | none => some k
    | some m => some (min k m)

/-- The in-order traversal of `std::map`: the key the iterator of the range-for
loop of `fire` reaches next, `none` standing for `end()`. With no key visited so
far (`begin()`) it is the least key, otherwise the least key greater than the
key just visited, in the map as it is at that moment. -/
def nextKey (m : List (Int × List Nat)) (visited : Option Int) : Option Int :=
  match visited with
  | none => minKey (m.map Prod.fst)
  | some c => minKey ((m.map Prod.fst).filter (fun k => c < k))

/-- The effect of one call made by a running handler. -/
def applyAction (s : PrioritySignal) : SignalAction → PrioritySignal
  | .connect h p => (s.connect h p).2
  | .disconnect h p => (s.disconnect h p).2

/-- The effect of the calls a running handler makes, in order. -/
def applyActions (s : PrioritySignal) (actions : List SignalAction) : PrioritySignal :=
  actions.foldl applyAction s

/-- The call `signal.fire(args...)` on one bucket: the handlers of the bucket are invoked
in turn; `beh h s` is the list of calls handler `h` makes when invoked on the
signal in state `s`. -/
def fireBucket (beh : Nat → PrioritySignal → List SignalAction) (s : PrioritySignal)
    (handlers : List Nat) : PrioritySignal :=
  handlers.foldl (fun st h => applyActions st (beh h st)) s

/-- The range-for loop of `PrioritySignal::fire`. The log lists, in the order of
firing, each bucket fired: its priority and the handlers invoked. The first
argument bounds the number of iterations. -/
def fireLoop (beh : Nat → PrioritySignal → List SignalAction) :
    Nat → PrioritySignal → Option Int → List (Int × List Nat) →
    PrioritySignal × List (Int × List Nat)
  | 0, s, _, log => (s, log)
  | n + 1, s, visited, log =>
    match nextKey s.signals_ visited with
    | none => (s, log)
    | some k =>
      let hs := bucketAt s.signals_ k
      let s1 := fireBucket beh { s with current_priority_ := k } hs
      fireLoop beh n s1 (some k) (log ++ [(k, hs)])

/-- The function `PrioritySignal::fire(args...)`: the signal afterwards and the log of the
buckets fired. The loop visits `int` keys in strictly ascending order, hence
runs at most `INT_VALUES` times. -/
def PrioritySignal.fire (beh : Nat → PrioritySignal → List SignalAction)
    (s : PrioritySignal) : PrioritySignal × List (Int × List Nat) :=
  let r := fireLoop beh INT_VALUES { s with firing_ := true } none []
  ({ r.1 with firing_ := false }, r.2)

/-- The actions of a list without the connect calls whose priority is at most
`c`. -/
def dropLateConnects (c : Int) (actions : List SignalAction) : List SignalAction :=
  actions.filter (fun a =>
    match a with
    | .connect _ p => decide (c < p)
    | .disconnect _ _ => true)

/-- The signal with handler 0 connected at priority 0. -/
def lateSignalA : PrioritySignal := (PrioritySignal.new.connect 0 0).2

/-- Handler 0 connects handler 1 at priority 0 when it runs; the other handlers
make no calls. -/
def lateBehA : Nat → PrioritySignal → List SignalAction :=
  fun h _ => if h = 0 then [SignalAction.connect 1 0] else []

/-- The signal with handler 7 connected at priority 2 and handler 0 connected at
priority 5. -/
def lateSignalB : PrioritySignal :=
  ((PrioritySignal.new.connect 7 2).2.connect 0 5).2

/-- Handler 0 connects handler 1 at priority 2 when it runs; the other handlers
make no calls. -/
def lateBehB : Nat → PrioritySignal → List SignalAction :=
  fun h _ => if h = 0 then [SignalAction.connect 1 2] else []

/-! ## simulation.h : the event list

simulation.h declares `schedule`, `schedule_before`, `schedule_now` and
`simulate_step`; their bodies are not among the sources. They are modelled from
section 4.1 of the specification. -/

/-- An entry of the event list: a pending event with its insertion number. -/
structure Pending (T : Type) where
  evt : Event T
  seq : Nat
deriving DecidableEq, Repr

/-- Modelled from the spec: the sort key of the event queue (the body of
`Simulation::insert_event` is missing): time, priority, sub priority, insertion
order, compared lexicographically. -/
def Pending.key {T : Type} (p : Pending T) : Lex (T × Lex (Int × Lex (Int × Nat))) :=
  toLex (p.evt.time_, toLex (p.evt.priority_, toLex (p.evt.sub_priority_, p.seq)))

/-- The part of the state of `Simulation` (simulation.h) that the event loop
uses: the clock, the pending events in the order in which they will be popped,
the event being processed, and the insertion counter of the key. -/
structure Simulation (T : Type) where
  simclock_ : T
  events_ : List (Pending T)
  current_event_ : Option (Event T)
  next_seq : Nat
deriving DecidableEq, Repr

/-- Modelled from the spec: the state after `Simulation::init()` (body missing), at the
start of a replication: clock 0, no pending event. -/
def Simulation.init {T : Type} [Zero T] : Simulation T :=
  { simclock_ := 0, events_ := [], current_event_ := none, next_seq := 0 }

/-- A scheduling call made on the simulation, by the model set-up or by the
`process()` of an event. In `schedule_before` the event `insert` is named by its
identity. -/
inductive ScheduleCall (T : Type) where
  | schedule (evt : Event T) (time : T)
  | schedule_before (evt : Event T) (insert : Nat) (time : T)
  | schedule_now (evt : Event T)
deriving DecidableEq, Repr

/-- The calls that are `schedule`. -/
def ScheduleCall.isSchedule {T : Type} : ScheduleCall T → Bool
  | .schedule _ _ => true
  | _ => false

/-- Modelled from the spec: insertion by sort key (`Simulation::insert_event`, body
missing): the entry goes before the first entry whose key is greater. -/
def insertByKey {T : Type} [LinearOrder T] (e : Pending T) : List (Pending T) → List (Pending T)
  | [] => [e]
  | x :: xs => if e.key < x.key then e :: x :: xs else x :: insertByKey e xs

/-- Modelled from the spec: insertion immediately before the entry of the event with
identity `insert`, with the time of that event (the body of `schedule_before` is
missing); the list is unchanged when there is no such entry. -/
def insertBefore {T : Type} (evt : Event T) (seq : Nat) (insert : Nat) :
    List (Pending T) → List (Pending T)
  | [] => []
  | x :: xs =>
    if x.evt.id = insert then ⟨{ evt with time_ := x.evt.time_ }, seq⟩ :: x :: xs
    else x :: insertBefore evt seq insert xs

/-- Modelled from the spec: `Simulation::schedule(evt, time)` (body missing):
sets the time of the event to now + time and inserts it by sort key. -/
def Simulation.schedule {T : Type} [LinearOrder T] [Add T] (s : Simulation T)
    (evt : Event T) (time : T) : Simulation T :=
  { s with
    events_ := insertByKey ⟨{ evt with time_ := s.simclock_ + time }, s.next_seq⟩ s.events_,
    next_seq := s.next_seq + 1 }

/-- Modelled from the spec: `Simulation::schedule_now(evt)` (body missing):
inserts the event directly after the current event, with time now and the
marker priority `PRIORITY_NOW`. The current event has been popped, so the place
directly after it is the head of the pending events. -/
def Simulation.schedule_now {T : Type} (s : Simulation T) (evt : Event T) : Simulation T :=
  { s with
    events_ := ⟨{ evt with time_ := s.simclock_, priority_ := PRIORITY_NOW }, s.next_seq⟩ ::
      s.events_,
    next_seq := s.next_seq + 1 }

/-- Modelled from the spec: `Simulation::schedule_before(evt, insert, time)`
(body missing): requires time ≥ 0 and inserts the event immediately before
`insert`, inheriting its time. A call with a negative time is left without
effect. -/
def Simulation.schedule_before {T : Type} [LinearOrder T] [Zero T] (s : Simulation T)
    (evt : Event T) (insert : Nat) (time : T) : Simulation T :=
  if time < 0 then s
  else
    { s with
      events_ := insertBefore evt s.next_seq insert s.events_,
      next_seq := s.next_seq + 1 }

/-- The effect of a scheduling call. -/
def Simulation.exec {T : Type} [LinearOrder T] [Add T] [Zero T] (s : Simulation T) :
    ScheduleCall T → Simulation T
  | .schedule evt time => s.schedule evt time
  | .schedule_before evt insert time => s.schedule_before evt insert time
  | .schedule_now evt => s.schedule_now evt

/-- Modelled from the spec: `Simulation::simulate_step()` (body missing): pops
one event, advances the clock to its time and calls its `process()`;
`process evt s` is the list of scheduling calls the event makes. The result is
the entry popped together with the entries that were pending at that moment
(`none` when no event is left), and the simulation afterwards. -/
def Simulation.simulate_step {T : Type} [LinearOrder T] [Add T] [Zero T]
    (process : Event T → Simulation T → List (ScheduleCall T)) (s : Simulation T) :
    Option (Pending T × List (Pending T)) × Simulation T :=
  match s.events_ with
  | [] => (none, s)
  | p :: rest =>
    let s1 := { s with simclock_ := p.evt.time_, events_ := rest, current_event_ := some p.evt }
    (some (p, rest), (process p.evt s1).foldl Simulation.exec s1)

/-- The event loop run for at most `n` steps: the pops in order, each with the
entries pending when it was popped. -/
def Simulation.simulate {T : Type} [LinearOrder T] [Add T] [Zero T]
    (process : Event T → Simulation T → List (ScheduleCall T)) :
    Nat → Simulation T → List (Pending T × List (Pending T))
  | 0, _ => []
  | n + 1, s =>
    match s.simulate_step process with
    | (none, _) => []
    | (some pop, s1) => pop :: Simulation.simulate process n s1

/-- The keys of the pops of a run, in the order of popping. -/
def popKeys {T : Type} (pops : List (Pending T × List (Pending T))) :
    List (Lex (T × Lex (Int × Lex (Int × Nat)))) :=
  pops.map (fun pop => pop.1.key)

/-- The simulation after the set-up calls, from the initial state. -/
def Simulation.setup {T : Type} [LinearOrder T] [Add T] [Zero T]
    (calls : List (ScheduleCall T)) : Simulation T :=
  calls.foldl Simulation.exec Simulation.init

/-- Run A: event 1 (priority OUT) is pending at time 0; when processed it
schedules event 2 with priority OUT_UNBLOCKED after time 0. -/
def runA : List (Pending Int × List (Pending Int)) :=
  Simulation.simulate
    (fun e _ => if e.id = 1 then [.schedule (Event.new 2 PRIORITY_OUT_UNBLOCKED 0) 0] else [])
    5 (Simulation.setup [.schedule (Event.new 1 PRIORITY_OUT 0) 0])

/-- Run B: event 1 (priority OUT) is pending at time 0; when processed it
schedules events 2 and 3 with `schedule_now`. -/
def runB : List (Pending Int × List (Pending Int)) :=
  Simulation.simulate
    (fun e _ => if e.id = 1 then
        [.schedule_now (Event.new 2 PRIORITY_OUT 0), .schedule_now (Event.new 3 PRIORITY_OUT 0)]
      else [])
    5 (Simulation.setup [.schedule (Event.new 1 PRIORITY_OUT 0) 0])

/-- Run C: event 1 is pending at time 0 and event 2 (priority OUT) at time 1;
when processed, event 1 schedules event 3 (priority TIMECALLBACK) before
event 2. -/
def runC : List (Pending Int × List (Pending Int)) :=
  Simulation.simulate
    (fun e _ => if e.id = 1 then
        [.schedule_before (Event.new 3 PRIORITY_TIMECALLBACK 0) 2 0]
      else [])
    5 (Simulation.setup [.schedule (Event.new 1 PRIORITY_OUT 0) 0,
      .schedule (Event.new 2 PRIORITY_OUT 0) 1])

/-- The invariant of the event list when only `schedule` is used: the pending
entries are sorted by key and their insertion numbers are below the counter. -/
def QueueSorted {T : Type} [LinearOrder T] (s : Simulation T) : Prop :=
  List.Pairwise (fun a b : Pending T => a.key < b.key) s.events_ ∧
  ∀ p ∈ s.events_, p.seq < s.next_seq

/-- The set-up calls of run D: three events enqueued with `schedule`. -/
def runDCalls : List (ScheduleCall Int) :=
  [.schedule (Event.new 1 PRIORITY_OUT 0) 0,
   .schedule (Event.new 2 PRIORITY_OUT_UNBLOCKED 0) 0,
   .schedule (Event.new 3 PRIORITY_OUT 0) 1]

/-- The events of run D: event 1 schedules event 4 at the current time. -/
def runDProcess : Event Int → Simulation Int → List (ScheduleCall Int) :=
  fun e _ => if e.id = 1 then [.schedule (Event.new 4 PRIORITY_OUT_UNBLOCKED 0) 0] else []

/-! ## exitport.h : cancelling and resuming out events

exitport.h declares `cancel_out_events`, `schedule_canceled_out_events`,
`get_remaining_out_event_time` and `set_add_elapsed_time`; their bodies are not
among the sources. They are modelled from the specification (sections 4.1, 4.6
and 5) and from the documentation of the declarations. -/

/-- The data of `EventOut` (eventout.h) the exit port uses: the entity, the
priority and `out_time_`, the simulation time at which the event fires. -/
structure EventOut (T : Type) where
  entity : Nat
  priority : Int
  out_time_ : T
deriving DecidableEq, Repr

/-- The data members of `ExitPort` (exitport.h) that take part in cancelling
and resuming. -/
structure ExitPort (T : Type) where
  out_events_ : List (EventOut T)
  out_event_cancelled_ : Bool
  start_cancel_ : T
  add_elapsed_time_ : Bool
deriving DecidableEq, Repr

/-- Modelled from the spec: `ExitPort::set_add_elapsed_time(value)` (body missing): sets
whether a cancelled event that is resumed is delayed by the elapsed time. -/
def ExitPort.set_add_elapsed_time {T : Type} (port : ExitPort T) (value : Bool) : ExitPort T :=
  { port with add_elapsed_time_ := value }

/-- Modelled from the spec: `ExitPort::schedule_event_out(entity, time, priority)`
(body missing): an out event for the entity is scheduled at now + time. -/
def ExitPort.schedule_event_out {T : Type} [Add T] (port : ExitPort T) (now : T)
    (entity : Nat) (time : T) (priority : Int) : ExitPort T :=
  { port with out_events_ := port.out_events_ ++ [⟨entity, priority, now + time⟩] }

/-- Modelled from the spec: `ExitPort::cancel_out_events()` (body missing): the
scheduled out events are flagged as cancelled and the time of the cancellation
is kept in `start_cancel_`. -/
def ExitPort.cancel_out_events {T : Type} (port : ExitPort T) (now : T) : ExitPort T :=
  { port with out_event_cancelled_ := true, start_cancel_ := now }

/-- Modelled from the spec: `ExitPort::get_remaining_out_event_time(event_out)`
(body missing): the remaining time of an out event, or 0 if the remaining time
is less than 0. With `add_elapsed_time_` the remaining time is the one the event
had when it was cancelled; without, it is what is left until its scheduled
time. -/
def ExitPort.get_remaining_out_event_time {T : Type} [LinearOrder T] [Sub T] [Zero T]
    (port : ExitPort T) (now : T) (event_out : EventOut T) : T :=
  let remaining :=
    if port.add_elapsed_time_ = true then event_out.out_time_ - port.start_cancel_
    else event_out.out_time_ - now
  if remaining < 0 then 0 else remaining

/-- Modelled from the spec: `ExitPort::schedule_canceled_out_events()` (body
missing): every cancelled out event is scheduled anew at now + remaining
time. -/
def ExitPort.schedule_canceled_out_events {T : Type} [LinearOrder T] [Add T] [Sub T] [Zero T]
    (port : ExitPort T) (now : T) : ExitPort T :=
  if port.out_event_cancelled_ = true then
    { port with
      out_events_ := port.out_events_.map (fun e =>
        { e with out_time_ := now + port.get_remaining_out_event_time now e }),
      out_event_cancelled_ := false }
  else port

/-- An exit port with one out event for entity 1, scheduled at time 0 to fire at
time 5, and the given setting of `add_elapsed_time_`. -/
def portWithOut (add_elapsed : Bool) : ExitPort Int :=
  (ExitPort.set_add_elapsed_time ⟨[], false, 0, false⟩ add_elapsed).schedule_event_out
    0 1 5 PRIORITY_OUT

/-! ## failure.h : failures of type CYCLES

failure.h declares `entity_enter`, `entity_exited` and `set_cycle_count` and
documents the counter `cycle_count_`; the bodies are not among the sources.
They are modelled from section 4.5 of the specification and from the
documentation of the declarations. -/

/-- The enumeration `FailureTypes` (common.h). -/
inductive FailureTypes where
  | PERCENT
  | DISTRIBUTIONS
  | CYCLES
deriving DecidableEq, Repr

/-- An entity as a failure sees it: its identity and the identity of the entity
that is its assembly identity. -/
structure EntityRef where
  id : Nat
  assembly_identity : Nat
deriving DecidableEq, Repr

/-- The data members of `Failure` (failure.h) that take part in counting
cycles. `interval` is the value of the interval number generator, the number of
exits between failures; `owner_is_disassembly` tells whether the owner `node_`
is a Disassembly. -/
structure Failure where
  failure_type_ : FailureTypes
  owner_is_disassembly : Bool
  interval : Nat
  cycle_count_ : Nat
  entered_entity_ : Option Nat
deriving DecidableEq, Repr

/-- What the owner node reports to its failure: an entity entered the node, or
an entity exited from it. -/
inductive NodeEvent where
  | entered (entity : EntityRef)
  | exited (entity : EntityRef)
deriving DecidableEq, Repr

/-- Modelled from the spec: `Failure::set_cycle_count(count)` (body missing):
sets the number of exits required before the next failure; a count of 0 is a
runtime error. -/
def Failure.set_cycle_count (f : Failure) (count : Nat) : Except String Failure :=
  if count = 0 then .error "runtime_error" else .ok { f with cycle_count_ := count }

/-- Modelled from the spec: `Failure::entity_enter(departure, destination, entity)`
(body missing): keeps the assembly identity of the last entity to enter the
owner. -/
def Failure.entity_enter (f : Failure) (entity : EntityRef) : Failure :=
  { f with entered_entity_ := some entity.assembly_identity }

/-- Modelled from the spec: the exits a failure counts (part of the missing body of
`Failure::entity_exited`): those of a failure of type CYCLES, and for a Disassembly
owner only the exit of the entity that is the assembly identity of the entity
that entered. -/
def Failure.counts (f : Failure) (entity : EntityRef) : Bool :=
  decide (f.failure_type_ = FailureTypes.CYCLES) &&
    (!f.owner_is_disassembly || decide (f.entered_entity_ = some entity.id))

/-- Modelled from the spec: `Failure::entity_exited(departure, destination, entity)`
(body missing): a counted exit decrements `cycle_count_`; when the counter
reaches 0 the failure is scheduled (flag true) and the counter starts again
from the interval. -/
def Failure.entity_exited (f : Failure) (entity : EntityRef) : Failure × Bool :=
  if f.counts entity = true then
    if f.cycle_count_ - 1 = 0 then ({ f with cycle_count_ := f.interval }, true)
    else ({ f with cycle_count_ := f.cycle_count_ - 1 }, false)
  else (f, false)

/-- The failure after one report of its owner, with two flags: whether the
report was a counted exit, and whether a failure was scheduled. -/
def Failure.step (f : Failure) : NodeEvent → Failure × (Bool × Bool)
  | .entered e => (f.entity_enter e, (false, false))
  | .exited e => ((f.entity_exited e).1, (f.counts e, (f.entity_exited e).2))

/-- The flags of a sequence of reports, in order. -/
def Failure.run (f : Failure) : List NodeEvent → List (Bool × Bool)
  | [] => []
  | ev :: evs => (f.step ev).2 :: Failure.run (f.step ev).1 evs

/-- The failure after a sequence of reports. -/
def Failure.after (f : Failure) : List NodeEvent → Failure
  | [] => f
  | ev :: evs => Failure.after (f.step ev).1 evs

/-- A failure of type CYCLES with interval 2 on an operation, its counter
initialised to 1. -/
def cyclesFailure : Failure :=
  { failure_type_ := .CYCLES, owner_is_disassembly := false, interval := 2,
    cycle_count_ := 1, entered_entity_ := none }

/-- A failure of type CYCLES with interval 2 on a disassembly, its counter
initialised to 1. -/
def cyclesFailureDisassembly : Failure :=
  { failure_type_ := .CYCLES, owner_is_disassembly := true, interval := 2,
    cycle_count_ := 1, entered_entity_ := none }

/-- The reports of a disassembly up to its first failure: an entity whose
assembly identity is entity 11 enters, and entity 11 exits. -/
def reportsPre : List NodeEvent :=
  [.entered ⟨10, 11⟩, .exited ⟨11, 11⟩]

/-- The reports of the disassembly up to its next failure: parts exit and
entities enter in between, and the assembly identities 21 and 31 exit. -/
def reportsSeg : List NodeEvent :=
  [.exited ⟨12, 11⟩, .entered ⟨20, 21⟩, .exited ⟨22, 21⟩, .exited ⟨21, 21⟩,
   .entered ⟨30, 31⟩, .exited ⟨31, 31⟩]

/-! ## resourcemanager.h, logicresource.h, noderesource.h : resource allocation

The headers declare `ResourceManager::allocate_resources`, `add_to_block_list`,
`trigger_blocklist`, `NodeResource::release_resources` and
`LogicResource::release` / `set_node_resource`; the bodies are not among the
sources. They are modelled from sections 3 and 4.6 of the specification. The
execution factor (a `double`) is kept abstract in a linearly ordered type. -/

/-- The enumeration `NodeResource::Sorting` (noderesource.h). -/
inductive Sorting where
  | FEW_SKILLS_FAST_EXECUTION
  | FEW_SKILLS_SLOW_EXECUTION
  | MANY_SKILLS_FAST_EXECUTION
  | MANY_SKILLS_SLOW_EXECUTION
  | FAST_EXECUTION_FEW_SKILLS
  | FAST_EXECUTION_MANY_SKILLS
  | SLOW_EXECUTION_FEW_SKILLS
  | SLOW_EXECUTION_MANY_SKILLS
deriving DecidableEq, Repr

/-- The enumeration `ResourceType` (common.h). -/
inductive ResourceType where
  | PROCESSING_RESOURCE
  | REPAIR_RESOURCE
  | SETUP_RESOURCE
deriving DecidableEq, Repr

/-- The data members of `LogicResource` (logicresource.h) that take part in
allocation: `id` is the identity of the object, `skills_` the ids of the skills
it provides, `node_resource_` the identity of the NodeResource it is allocated
to (`none` for a null pointer). -/
structure LogicResource (F : Type) where
  id : Nat
  skills_ : List Nat
  execution_factor_ : F
  node_resource_ : Option Nat
deriving DecidableEq, Repr

/-- The data members of `NodeResource` (noderesource.h) that take part in
allocation: `skills_` are the ids of the required skills. -/
structure NodeResource where
  id : Nat
  skills_ : List Nat
  priority_ : Int
  sorting_ : Sorting
deriving DecidableEq, Repr

/-- The class `ResourceManager::BlockListItem` (resourcemanager.h). -/
structure BlockListItem where
  resource : NodeResource
  entity : Nat
  node : Nat
  failure : Option Nat
  type_ : ResourceType
deriving DecidableEq, Repr

/-- The data members of `ResourceManager` (resourcemanager.h) that take part in
allocation: the pool of free resources `logic_resources_`, the identities of
all resources, the allocated resources and the block list. -/
structure ResourceManager (F : Type) where
  logic_resources_ : List (LogicResource F)
  all_logic_resources_ : List Nat
  allocated_ : List (LogicResource F)
  block_list_ : List BlockListItem
deriving DecidableEq, Repr

/-- Modelled from the spec: `LogicResource::skills_count()` (body missing): the number of
skills the resource provides. -/
def LogicResource.skills_count {F : Type} (r : LogicResource F) : Nat := r.skills_.length

/-- Modelled from the spec: `LogicResource::set_node_resource(node_resource)` (body
missing): sets the holder of the resource. -/
def LogicResource.set_node_resource {F : Type} (r : LogicResource F)
    (node_resource : Option Nat) : LogicResource F :=
  { r with node_resource_ := node_resource }

/-- A lexicographic comparison from the comparisons of the two axes. -/
def lexBefore (lt1 eq1 le2 : Bool) : Bool := lt1 || (eq1 && le2)

/-- Modelled from the spec: the order in which the allocator considers the
free resources, by the sorting of the NodeResource (the comparator is missing):
the primary key is the axis named first, the secondary key the other one,
each in the direction named. Fast execution is a small execution factor. -/
def resourceBefore {F : Type} [LinearOrder F] (sorting : Sorting)
    (a b : LogicResource F) : Bool :=
  match sorting with
  | .FEW_SKILLS_FAST_EXECUTION =>
    lexBefore (decide (a.skills_count < b.skills_count))
      (decide (a.skills_count = b.skills_count))
      (decide (a.execution_factor_ ≤ b.execution_factor_))
  | .FEW_SKILLS_SLOW_EXECUTION =>
    lexBefore (decide (a.skills_count < b.skills_count))
      (decide (a.skills_count = b.skills_count))
      (decide (b.execution_factor_ ≤ a.execution_factor_))
  | .MANY_SKILLS_FAST_EXECUTION =>
    lexBefore (decide (b.skills_count < a.skills_count))
      (decide (a.skills_count = b.skills_count))
      (decide (a.execution_factor_ ≤ b.execution_factor_))
  | .MANY_SKILLS_SLOW_EXECUTION =>
    lexBefore (decide (b.skills_count < a.skills_count))
      (decide (a.skills_count = b.skills_count))
      (decide (b.execution_factor_ ≤ a.execution_factor_))
  | .FAST_EXECUTION_FEW_SKILLS =>
    lexBefore (decide (a.execution_factor_ < b.execution_factor_))
      (decide (a.execution_factor_ = b.execution_factor_))
      (decide (a.skills_count ≤ b.skills_count))
  | .FAST_EXECUTION_MANY_SKILLS =>
    lexBefore (decide (a.execution_factor_ < b.execution_factor_))
      (decide (a.execution_factor_ = b.execution_factor_))
      (decide (b.skills_count ≤ a.skills_count))
  | .SLOW_EXECUTION_FEW_SKILLS =>
    lexBefore (decide (b.execution_factor_ < a.execution_factor_))
      (decide (a.execution_factor_ = b.execution_factor_))
      (decide (a.skills_count ≤ b.skills_count))
  | .SLOW_EXECUTION_MANY_SKILLS =>
    lexBefore (decide (b.execution_factor_ < a.execution_factor_))
      (decide (a.execution_factor_ = b.execution_factor_))
      (decide (b.skills_count ≤ a.skills_count))

/-- Modelled from the spec: the selection step of the allocator (missing): it
iterates over the required skills and selects for each one a free resource that
provides it, the first in the order of consideration; a resource selected for
one skill is not available for the next. The result is the resources selected
and the resources left, or `none` when the selection is incomplete. -/
def selectResources {F : Type} [DecidableEq F] :
    List Nat → List (LogicResource F) → Option (List (LogicResource F) × List (LogicResource F))
  | [], candidates => some ([], candidates)
  | skill :: skills, candidates =>
    match candidates.find? (fun r => decide (skill ∈ r.skills_)) with
    | none => none
    | some r =>
      match selectResources skills (candidates.erase r) with
      | none => none
      | some (selected, left) => some (r :: selected, left)

/-- Modelled from the spec: `ResourceManager::add_logic_resource(resource)` (body
missing): the resource joins the pool, free. -/
def ResourceManager.add_logic_resource {F : Type} (rm : ResourceManager F)
    (resource : LogicResource F) : ResourceManager F :=
  { rm with
    logic_resources_ := rm.logic_resources_ ++ [resource.set_node_resource none],
    all_logic_resources_ := rm.all_logic_resources_ ++ [resource.id] }

/-- A resource manager to which the given resources have been added, all free. -/
def ResourceManager.create {F : Type} (resources : List (LogicResource F)) : ResourceManager F :=
  resources.foldl ResourceManager.add_logic_resource ⟨[], [], [], []⟩

/-- Modelled from the spec: `ResourceManager::allocate_resources(node_resource, ...)`
(body missing): the free resources are considered in the order of the sorting
of the NodeResource; when a free resource is found for each required skill, the
selected resources leave the pool and are allocated to the NodeResource (result
true); otherwise nothing is allocated (result false). -/
def ResourceManager.allocate_resources {F : Type} [LinearOrder F] (rm : ResourceManager F)
    (node_resource : NodeResource) : Bool × ResourceManager F :=
  let candidates := List.insertionSort
    (fun a b => resourceBefore node_resource.sorting_ a b = true) rm.logic_resources_
  match selectResources node_resource.skills_ candidates with
  | none => (false, rm)
  | some (selected, left) =>
    (true, { rm with
      logic_resources_ := left,
      allocated_ := rm.allocated_ ++
        selected.map (fun r => r.set_node_resource (some node_resource.id)) })

/-- Modelled from the spec: `ResourceManager::add_to_block_list(resource, entity, node,
failure, type)` (body missing): the request is appended to the block list. -/
def ResourceManager.add_to_block_list {F : Type} (rm : ResourceManager F)
    (item : BlockListItem) : ResourceManager F :=
  { rm with block_list_ := rm.block_list_ ++ [item] }

/-- Modelled from the spec: a request for resources (section 4.6, steps 2 and 3):
the manager tries to allocate; if the selection is incomplete the request is
appended to the block list. -/
def ResourceManager.request {F : Type} [LinearOrder F] (rm : ResourceManager F)
    (item : BlockListItem) : ResourceManager F :=
  match rm.allocate_resources item.resource with
  | (true, rm1) => rm1
  | (false, rm1) => rm1.add_to_block_list item

/-- Modelled from the spec: `ResourceManager::trigger_blocklist()` (body
missing): the manager walks the block list in priority order (lower value
first) and allocates for the requests it can satisfy, which leave the list. -/
def ResourceManager.trigger_blocklist {F : Type} [LinearOrder F] (rm : ResourceManager F) :
    ResourceManager F :=
  (List.insertionSort (fun a b : BlockListItem => a.resource.priority_ ≤ b.resource.priority_)
    rm.block_list_).foldl
    (fun st item =>
      match st.allocate_resources item.resource with
      | (true, st1) => { st1 with block_list_ := st1.block_list_.erase item }
      | (false, _) => st)
    rm

/-- Modelled from the spec: `NodeResource::release_resources()` with
`LogicResource::release()` (bodies missing): each resource allocated to the
NodeResource returns to the pool, and the manager walks its block list. -/
def ResourceManager.release_resources {F : Type} [LinearOrder F] (rm : ResourceManager F)
    (node_resource : Nat) : ResourceManager F :=
  let held := rm.allocated_.filter (fun r => decide (r.node_resource_ = some node_resource))
  let others := rm.allocated_.filter (fun r => !decide (r.node_resource_ = some node_resource))
  ResourceManager.trigger_blocklist
    { rm with
      logic_resources_ := rm.logic_resources_ ++ held.map (fun r => r.set_node_resource none),
      allocated_ := others }

/-- A call on the resource subsystem: a request of a NodeResource, or the
release of the resources of a NodeResource. -/
inductive ResourceCall where
  | request (item : BlockListItem)
  | release (node_resource : Nat)
deriving DecidableEq, Repr

/-- The effect of a call. -/
def ResourceManager.exec {F : Type} [LinearOrder F] (rm : ResourceManager F) :
    ResourceCall → ResourceManager F
  | .request item => rm.request item
  | .release node_resource => rm.release_resources node_resource

/-- The invariant of the pool: the free and the allocated resources together
are the resources of the manager, the free ones are held by no NodeResource and
each allocated one is held by one. -/
def ResourceManager.PoolInv {F : Type} (rm : ResourceManager F) (ids : List Nat) : Prop :=
  ((rm.logic_resources_ ++ rm.allocated_).map (fun r => r.id)).Perm ids ∧
  (∀ r ∈ rm.logic_resources_, r.node_resource_ = none) ∧
  (∀ r ∈ rm.allocated_, ∃ n, r.node_resource_ = some n)

/-- Two welders and a painter. -/
def shopResources : List (LogicResource Int) :=
  [⟨1, [7], 2, none⟩, ⟨2, [7, 8], 1, none⟩, ⟨3, [8], 1, none⟩]

/-- A NodeResource that requires the skill 7. -/
def weldJob (id : Nat) : BlockListItem :=
  ⟨⟨id, [7], 0, .FEW_SKILLS_FAST_EXECUTION⟩, id, id, none, .PROCESSING_RESOURCE⟩

/-- Three requests for a welder, then the release of the first. -/
def shopCalls : List ResourceCall :=
  [.request (weldJob 10), .request (weldJob 11), .request (weldJob 12), .release 10]

/-- The resource manager reached from the manager created with the given
resources by a sequence of calls. -/
def ResourceManager.reached {F : Type} [LinearOrder F] (resources : List (LogicResource F))
    (calls : List ResourceCall) : ResourceManager F :=
  calls.foldl ResourceManager.exec (ResourceManager.create resources)

/-- The signal `lateSignalB` while it fires the bucket of priority 5. -/
def lateSignalFiring : PrioritySignal :=
  { lateSignalB with firing_ := true, current_priority_ := 5 }

/-- The greatest `int`. -/
def INT_MAX : Int := 2147483647

/-- The priority a call names. -/
def SignalAction.priority : SignalAction → Int
  | .connect _ p => p
  | .disconnect _ p => p

/-- The keys of the map are values of type `int`. -/
def KeysInRange (s : PrioritySignal) : Prop :=
  ∀ kv ∈ s.signals_, INT_LOWEST ≤ kv.1 ∧ kv.1 ≤ INT_MAX

/-- The priorities the handlers name in their calls are values of type `int`. -/
def ActionsInRange (beh : Nat → PrioritySignal → List SignalAction) : Prop :=
  ∀ h st, ∀ a ∈ beh h st, INT_LOWEST ≤ a.priority ∧ a.priority ≤ INT_MAX

/-! ## propertycontainer.h : the property container

The three maps of `PropertyContainer` are association lists. A `double` value
is kept abstract in a type `D`. A value held by a `std::any` is a pair of a
type code `u : U` (the type of the held value, as `typeid` tells it) and a
value of the type `Val u`. The codes `U` stand for the value types other than
`std::any` itself: assigning a `std::any` to a `std::any` copies what it holds,
so that `set<std::any>` and `get<std::any>` are member functions of their
own, `set_any` and `get_any`. -/

/-- The type `PropertyContainer::PropertyKey`, a
`std::variant<std::string, int, void*>`. -/
inductive PropertyKey where
  | string (s : String)
  | int (i : Int)
  | pointer (p : Nat)
deriving DecidableEq, Repr

/-- The exceptions the member functions of `PropertyContainer` let escape:
the `std::runtime_error` thrown by `get`, and the `std::bad_any_cast` thrown by
`std::any_cast` when the held value is of another type. -/
inductive PropertyError where
  | runtime_error (what : String)
  | bad_any_cast
deriving DecidableEq, Repr

/-- The cast `std::any_cast<V>(a)`, `V` being the type with code `u`. -/
def any_cast {U : Type} [DecidableEq U] {Val : U → Type} (u : U) (a : (u : U) × Val u) :
    Except PropertyError (Val u) :=
  if h : a.1 = u then .ok (h ▸ a.2) else .error .bad_any_cast

/-- The lookup `m.find(key)` of a `std::map`: the mapped value, `none` standing
for `end()`. -/
def mapFind {V : Type} (m : List (PropertyKey × V)) (key : PropertyKey) : Option V :=
  m.lookup key

/-- The assignment `m[key] = value` of a `std::map`. -/
def mapAssign {V : Type} (m : List (PropertyKey × V)) (key : PropertyKey) (value : V) :
    List (PropertyKey × V) :=
  if (m.lookup key).isSome then
    m.map (fun kv => if kv.1 = key then (key, value) else kv)
  else m ++ [(key, value)]

/-- The removal `m.erase(m.find(key))` of a `std::map`, when the key is found. -/
def mapErase {V : Type} (m : List (PropertyKey × V)) (key : PropertyKey) :
    List (PropertyKey × V) :=
  m.filter (fun kv => !decide (kv.1 = key))

/-- The text of a key in the message of `get`, the result of the `std::visit`:
the string itself, `std::to_string` of the int, and for a pointer what the
stream prints, given by `render`. -/
def PropertyKey.text (render : Nat → String) : PropertyKey → String
  | .string s => s
  | .int i => toString i
  | .pointer p => render p

/-- The data members of `PropertyContainer` (propertycontainer.h). -/
structure PropertyContainer (D : Type) (U : Type) (Val : U → Type) where
  properties_ : List (PropertyKey × ((u : U) × Val u))
  double_properties_ : List (PropertyKey × D)
  int_properties_ : List (PropertyKey × Int)

/-- The member function `has<V>(key)` for a type `V` other than double and
int. -/
def PropertyContainer.has {D U : Type} {Val : U → Type} (c : PropertyContainer D U Val)
    (key : PropertyKey) : Bool :=
  (mapFind c.properties_ key).isSome

/-- The member function `has<double>(key)`. -/
def PropertyContainer.has_double {D U : Type} {Val : U → Type} (c : PropertyContainer D U Val)
    (key : PropertyKey) : Bool :=
  (mapFind c.double_properties_ key).isSome

/-- The member function `has<int>(key)`. -/
def PropertyContainer.has_int {D U : Type} {Val : U → Type} (c : PropertyContainer D U Val)
    (key : PropertyKey) : Bool :=
  (mapFind c.int_properties_ key).isSome

/-- The member function `set<V>(key, value)`, `V` being the type with code `u`,
a type other than `std::any`: the assignment `properties_[key] = value` stores
a `std::any` that holds the value. -/
def PropertyContainer.set {D U : Type} {Val : U → Type} (c : PropertyContainer D U Val)
    (u : U) (key : PropertyKey) (value : Val u) : PropertyContainer D U Val :=
  { c with properties_ := mapAssign c.properties_ key ⟨u, value⟩ }

/-- The member function `set<double>(key, value)`. -/
def PropertyContainer.set_double {D U : Type} {Val : U → Type} (c : PropertyContainer D U Val)
    (key : PropertyKey) (value : D) : PropertyContainer D U Val :=
  { c with double_properties_ := mapAssign c.double_properties_ key value }

/-- The member function `set<int>(key, value)`. -/
def PropertyContainer.set_int {D U : Type} {Val : U → Type} (c : PropertyContainer D U Val)
    (key : PropertyKey) (value : Int) : PropertyContainer D U Val :=
  { c with int_properties_ := mapAssign c.int_properties_ key value }

/-- The member function `remove<V>(key)` for a type `V` other than double and
int. -/
def PropertyContainer.remove {D U : Type} {Val : U → Type} (c : PropertyContainer D U Val)
    (key : PropertyKey) : PropertyContainer D U Val :=
  { c with properties_ := mapErase c.properties_ key }

/-- The member function `remove<double>(key)`. -/
def PropertyContainer.remove_double {D U : Type} {Val : U → Type}
    (c : PropertyContainer D U Val) (key : PropertyKey) : PropertyContainer D U Val :=
  { c with double_properties_ := mapErase c.double_properties_ key }

/-- The member function `remove<int>(key)`. -/
def PropertyContainer.remove_int {D U : Type} {Val : U → Type}
    (c : PropertyContainer D U Val) (key : PropertyKey) : PropertyContainer D U Val :=
  { c with int_properties_ := mapErase c.int_properties_ key }

/-- The message of the `std::runtime_error` of `get` for a key. -/
def doesNotExist (render : Nat → String) (key : PropertyKey) : PropertyError :=
  .runtime_error ("Property does not exist: " ++ key.text render)

/-- The member function `get<V>(key) const`, `V` being the type with code `u`:
the value returned or the exception thrown, and the container afterwards. -/
def PropertyContainer.get {D U : Type} [DecidableEq U] {Val : U → Type}
    (render : Nat → String) (c : PropertyContainer D U Val) (u : U) (key : PropertyKey) :
    Except PropertyError (Val u) × PropertyContainer D U Val :=
  match mapFind c.properties_ key with
  | none => (.error (doesNotExist render key), c)
  | some a => (any_cast u a, c)

/-- The member function `get<double>(key) const`. -/
def PropertyContainer.get_double {D U : Type} {Val : U → Type}
    (render : Nat → String) (c : PropertyContainer D U Val) (key : PropertyKey) :
    Except PropertyError D × PropertyContainer D U Val :=
  match mapFind c.double_properties_ key with
  | none => (.error (doesNotExist render key), c)
  | some v => (.ok v, c)

/-- The member function `get<int>(key) const`. -/
def PropertyContainer.get_int {D U : Type} {Val : U → Type}
    (render : Nat → String) (c : PropertyContainer D U Val) (key : PropertyKey) :
    Except PropertyError Int × PropertyContainer D U Val :=
  match mapFind c.int_properties_ key with
  | none => (.error (doesNotExist render key), c)
  | some v => (.ok v, c)

/-- The member function `try_get<V>(key, value) const`, `V` being the type with
code `u`: the flag returned together with the content of `value` afterwards,
or the exception thrown, and the container afterwards. -/
def PropertyContainer.try_get {D U : Type} [DecidableEq U] {Val : U → Type}
    (c : PropertyContainer D U Val) (u : U) (key : PropertyKey) (value : Val u) :
    Except PropertyError (Bool × Val u) × PropertyContainer D U Val :=
  match mapFind c.properties_ key with
  | none => (.ok (false, value), c)
  | some a =>
    match any_cast u a with
    | .error e => (.error e, c)
    | .ok v => (.ok (true, v), c)

/-- The member function `try_get<double>(key, value) const`: the flag returned
together with the content of `value` afterwards, and the container
afterwards. -/
def PropertyContainer.try_get_double {D U : Type} {Val : U → Type}
    (c : PropertyContainer D U Val) (key : PropertyKey) (value : D) :
    (Bool × D) × PropertyContainer D U Val :=
  match mapFind c.double_properties_ key with
  | none => ((false, value), c)
  | some v => ((true, v), c)

/-- The member function `try_get<int>(key, value) const`. -/
def PropertyContainer.try_get_int {D U : Type} {Val : U → Type}
    (c : PropertyContainer D U Val) (key : PropertyKey) (value : Int) :
    (Bool × Int) × PropertyContainer D U Val :=
  match mapFind c.int_properties_ key with
  | none => ((false, value), c)
  | some v => ((true, v), c)

/-- The member function `try_update<V>(key, func)`, `V` being the type with
code `u`: the flag returned or the exception thrown, and the container
afterwards. -/
def PropertyContainer.try_update {D U : Type} [DecidableEq U] {Val : U → Type}
    (c : PropertyContainer D U Val) (u : U) (key : PropertyKey) (func : Val u → Val u) :
    Except PropertyError Bool × PropertyContainer D U Val :=
  match mapFind c.properties_ key with
  | none => (.ok false, c)
  | some a =>
    match any_cast u a with
    | .error e => (.error e, c)
    | .ok v => (.ok true, { c with properties_ := mapAssign c.properties_ key ⟨u, func v⟩ })

/-- The member function `try_update<double>(key, func)`: the flag returned and
the container afterwards. -/
def PropertyContainer.try_update_double {D U : Type} {Val : U → Type}
    (c : PropertyContainer D U Val) (key : PropertyKey) (func : D → D) :
    Bool × PropertyContainer D U Val :=
  match mapFind c.double_properties_ key with
  | none => (false, c)
  | some v => (true, { c with double_properties_ := mapAssign c.double_properties_ key (func v) })

/-- The member function `try_update<int>(key, func)`. -/
def PropertyContainer.try_update_int {D U : Type} {Val : U → Type}
    (c : PropertyContainer D U Val) (key : PropertyKey) (func : Int → Int) :
    Bool × PropertyContainer D U Val :=
  match mapFind c.int_properties_ key with
  | none => (false, c)
  | some v => (true, { c with int_properties_ := mapAssign c.int_properties_ key (func v) })

/-- Codes of a few types of values kept in a `std::any`. -/
inductive TypeCode where
  | string
  | bool
  | long
deriving DecidableEq, Repr

/-- The values of the type with a given code. -/
def TypeCode.Val : TypeCode → Type
  | .string => String
  | .bool => Bool
  | .long => Int

/-- The empty property container. -/
def emptyProperties : PropertyContainer Int TypeCode TypeCode.Val :=
  { properties_ := [], double_properties_ := [], int_properties_ := [] }

/-- A property container with the bool true under the key "flag", the double 3
under the key 7 and the int 4 under the key "n". -/
def sampleProperties : PropertyContainer Int TypeCode TypeCode.Val :=
  ((emptyProperties.set .bool (.string "flag") true).set_double (.int 7) 3).set_int
    (.string "n") 4

/-! ## object.h : the object hierarchy

The child hierarchy below an object is acyclic, so it unfolds into a finite
tree: an `Object` is given with the objects its `children_` point to. `addr` is
the identity (address) of the object, `cls` its dynamic class. A class `T` of a
template argument is the set of the dynamic classes that `dynamic_cast<T*>`
accepts. -/

/-- The data members of `Object` (object.h) the searches use, with the
children unfolded. -/
inductive Object where
  | mk (addr : Nat) (id_ : String) (cls : Nat) (children_ : List Object)

/-- The identity of the object. -/
def Object.addr : Object → Nat
  | .mk a _ _ _ => a

/-- The value of `Object::id()`. -/
def Object.id : Object → String
  | .mk _ i _ _ => i

/-- The dynamic class of the object. -/
def Object.cls : Object → Nat
  | .mk _ _ c _ => c

/-- The member `children_`. -/
def Object.children_ : Object → List Object
  | .mk _ _ _ cs => cs

/-- The class `Object` as a template argument: every object can be cast to
it. -/
def anyObject : Nat → Bool := fun _ => true

mutual
/-- The member function `Object::find_object_by_id<T>(id, recursive)`; `none`
stands for nullptr. -/
def Object.find_object_by_id (T : Nat → Bool) (id : String) (recursive : Bool) :
    Object → Option Object
  | .mk _ _ _ children => find_object_by_id_loop T id recursive children
/-- The loop of `find_object_by_id` over the children. -/
def find_object_by_id_loop (T : Nat → Bool) (id : String) (recursive : Bool) :
    List Object → Option Object
  | [] => none
  | object :: rest =>
    if object.id = id then
      (if T object.cls = true then some object else none)
    else if recursive = true then
      match Object.find_object_by_id T id recursive object with
      | some t => some t
      | none => find_object_by_id_loop T id recursive rest
    else find_object_by_id_loop T id recursive rest
end

mutual
/-- The member function `Object::polymorphic_objects<T>(recursive)`. -/
def Object.polymorphic_objects (T : Nat → Bool) (recursive : Bool) : Object → List Object
  | .mk _ _ _ children =>
    children.filter (fun object => T object.cls) ++
      (if recursive = true then polymorphic_objects_loop T children else [])
/-- The second loop of `polymorphic_objects`, run when `recursive` is true: the
results of the children are appended in turn. -/
def polymorphic_objects_loop (T : Nat → Bool) : List Object → List Object
  | [] => []
  | object :: rest =>
    Object.polymorphic_objects T true object ++ polymorphic_objects_loop T rest
end

mutual
/-- The proper descendants of an object: its children, their children, and so
on, each listed before its own descendants. -/
def Object.descendants : Object → List Object
  | .mk _ _ _ children => descendantsOfList children
/-- The objects of a list with their descendants. -/
def descendantsOfList : List Object → List Object
  | [] => []
  | object :: rest => object :: (Object.descendants object ++ descendantsOfList rest)
end

/-- A component (class 1) with a buffer (class 2, id "b1") that holds a failure
(class 3, id "f1"), and an operation (class 2, id "o1") that holds a failure
(class 3, id "f2"). Nodes have class 2. -/
def sampleModel : Object :=
  .mk 0 "root" 1
    [ .mk 1 "b1" 2 [.mk 2 "f1" 3 []],
      .mk 3 "o1" 2 [.mk 4 "f2" 3 []] ]

/-! The parent graph above an object is acyclic, so it unfolds into a finite
tree as well: an `ObjectUp` is an object given with the objects its `parents_`
point to. -/

/-- The data members of `Object` (object.h) that `find_parent` uses, with the
parents unfolded. -/
inductive ObjectUp where
  | mk (addr : Nat) (cls : Nat) (parents_ : List ObjectUp)

/-- The identity of the object. -/
def ObjectUp.addr : ObjectUp → Nat
  | .mk a _ _ => a

/-- The dynamic class of the object. -/
def ObjectUp.cls : ObjectUp → Nat
  | .mk _ c _ => c

/-- The value of `Object::parents()`. -/
def ObjectUp.parents : ObjectUp → List ObjectUp
  | .mk _ _ ps => ps

mutual
/-- The member function `Object::find_parent<T>(recursive)`; `none` stands for
nullptr. -/
def ObjectUp.find_parent (T : Nat → Bool) (recursive : Bool) : ObjectUp → Option ObjectUp
  | .mk _ _ parents =>
    match parents.find? (fun parent => T parent.cls) with
    | some t => some t
    | none => if recursive = true then find_parent_loop T parents else none
/-- The second loop of `find_parent`, run when `recursive` is true. -/
def find_parent_loop (T : Nat → Bool) : List ObjectUp → Option ObjectUp
  | [] => none
  | parent :: rest =>
    match ObjectUp.find_parent T true parent with
    | some t => some t
    | none => find_parent_loop T rest
end

/-- The ancestors of an object reached by exactly d parent links. -/
def ancestorsAt : Nat → ObjectUp → List ObjectUp
  | 0, o => [o]
  | d + 1, o => o.parents.flatMap (ancestorsAt d)

/-- A failure (object 0, class 3) with two parents: an operation (object 1)
whose parent is a cell (object 2) whose parent is a component (object 3,
class 1), and a buffer (object 4) whose parent is a component (object 5,
class 1). -/
def twoParents : ObjectUp :=
  .mk 0 3
    [ .mk 1 2 [.mk 2 4 [.mk 3 1 []]],
      .mk 4 2 [.mk 5 1 []] ]

/-- The class Component as a template argument: the objects of class 1. -/
def isComponent : Nat → Bool := fun c => c == 1

/-- The class Failure as a template argument: the objects of class 3. -/
def isFailure : Nat → Bool := fun c => c == 3

mutual
/-- The proper ancestors of an object: its parents, their parents, and so on,
each listed before its own ancestors. -/
def ObjectUp.ancestors : ObjectUp → List ObjectUp
  | .mk _ _ parents => ancestorsOfList parents
/-- The objects of a list with their ancestors. -/
def ancestorsOfList : List ObjectUp → List ObjectUp
  | [] => []
  | parent :: rest => parent :: (ObjectUp.ancestors parent ++ ancestorsOfList rest)
end

/-! ## breakpoint.h, eventinfo.h : breakpoints

breakpoint.h defines the filters of a breakpoint with their setters; the check
of an event against the breakpoints, `Simulation::check_breakpoints`, is
declared in simulation.h and its body is not among the sources. It is modelled
from sections 4.1 and 6 of the specification. -/

/-- The data members of `Breakpoint` (breakpoint.h). -/
structure Breakpoint (T : Type) where
  type_ : String
  has_type_ : Bool
  start_ : T
  has_start_ : Bool
  stop_ : T
  has_stop_ : Bool
  receiver_ : String
  has_receiver_ : Bool
  sender_ : String
  has_sender_ : Bool
deriving DecidableEq, Repr

/-- The constructor `Breakpoint::Breakpoint()`: no constraint is set. The
constructor leaves `start_` and `stop_` without a value; `start` and `stop` are
whatever they hold. -/
def Breakpoint.new {T : Type} (start stop : T) : Breakpoint T :=
  { type_ := "", has_type_ := false, start_ := start, has_start_ := false,
    stop_ := stop, has_stop_ := false, receiver_ := "", has_receiver_ := false,
    sender_ := "", has_sender_ := false }

/-- The setter `Breakpoint::set_type(type)`. -/
def Breakpoint.set_type {T : Type} (b : Breakpoint T) (type : String) : Breakpoint T :=
  { b with type_ := type, has_type_ := true }

/-- The function `Breakpoint::clear_type()`. -/
def Breakpoint.clear_type {T : Type} (b : Breakpoint T) : Breakpoint T :=
  { b with has_type_ := false }

/-- The setter `Breakpoint::set_start(time)`. -/
def Breakpoint.set_start {T : Type} (b : Breakpoint T) (time : T) : Breakpoint T :=
  { b with start_ := time, has_start_ := true }

/-- The function `Breakpoint::clear_start()`. -/
def Breakpoint.clear_start {T : Type} (b : Breakpoint T) : Breakpoint T :=
  { b with has_start_ := false }

/-- The setter `Breakpoint::set_stop(time)`. -/
def Breakpoint.set_stop {T : Type} (b : Breakpoint T) (time : T) : Breakpoint T :=
  { b with stop_ := time, has_stop_ := true }

/-- The function `Breakpoint::clear_stop()`. -/
def Breakpoint.clear_stop {T : Type} (b : Breakpoint T) : Breakpoint T :=
  { b with has_stop_ := false }

/-- The setter `Breakpoint::set_receiver(receiver)`. -/
def Breakpoint.set_receiver {T : Type} (b : Breakpoint T) (receiver : String) : Breakpoint T :=
  { b with receiver_ := receiver, has_receiver_ := true }

/-- The function `Breakpoint::clear_receiver()`. -/
def Breakpoint.clear_receiver {T : Type} (b : Breakpoint T) : Breakpoint T :=
  { b with has_receiver_ := false }

/-- The setter `Breakpoint::set_sender(sender)`. -/
def Breakpoint.set_sender {T : Type} (b : Breakpoint T) (sender : String) : Breakpoint T :=
  { b with sender_ := sender, has_sender_ := true }

/-- The function `Breakpoint::clear_sender()`. -/
def Breakpoint.clear_sender {T : Type} (b : Breakpoint T) : Breakpoint T :=
  { b with has_sender_ := false }

/-- The data members of `EventInfo` (eventinfo.h): what an event shows of
itself, the results of its `name()`, `time()`, `receiver()` and `sender()`, and
its breakpoint flags. -/
structure EventInfo (T : Type) where
  type_ : String
  time_ : T
  receiver_ : String
  sender_ : String
  breakpoint_ : Bool
  breakpoint_stopped_ : Bool
deriving DecidableEq, Repr

/-- Modelled from the spec: the check of an event against one breakpoint (part
of the missing body of `Simulation::check_breakpoints`): the filters that are
set are checked in turn, the type name, the time window from start to stop,
the sender and the receiver; the event matches when none of them fails. -/
def Breakpoint.is_match {T : Type} [LinearOrder T] (b : Breakpoint T) (e : EventInfo T) : Bool :=
  if b.has_type_ = true ∧ e.type_ ≠ b.type_ then false
  else if b.has_start_ = true ∧ e.time_ < b.start_ then false
  else if b.has_stop_ = true ∧ b.stop_ < e.time_ then false
  else if b.has_sender_ = true ∧ e.sender_ ≠ b.sender_ then false
  else if b.has_receiver_ = true ∧ e.receiver_ ≠ b.receiver_ then false
  else true

/-- Modelled from the spec: `Simulation::check_breakpoints(evt)` (body missing):
the event is checked against the breakpoints of the simulation and its
breakpoint flag is set when it matches one of them. -/
def check_breakpoints {T : Type} [LinearOrder T] (breakpoints_ : List (Breakpoint T))
    (evt : EventInfo T) : EventInfo T :=
  if breakpoints_.any (fun b => b.is_match evt) then { evt with breakpoint_ := true } else evt

/-- An out event at time 5 sent by "Op1" to "Buf1". -/
def sampleEventInfo : EventInfo Int :=
  { type_ := "EventOut", time_ := 5, receiver_ := "Buf1", sender_ := "Op1",
    breakpoint_ := false, breakpoint_stopped_ := false }

/-! ## failure.h : failures of type PERCENT

failure.h declares `set_availability_mttr`; its body is not among the sources.
It is modelled from section 4.5 of the specification. A `double` is a finite
number, an infinity or a NaN; the finite values are kept exact in an ordered
field (rounding is not modelled, and the two zeros are one), and an operation
with a zero divisor or an infinite operand gives what IEEE 754 prescribes. -/

/-- A value of type `double`. -/
inductive DoubleValue (K : Type) where
  | finite (x : K)
  | posInf
  | negInf
  | nan
deriving DecidableEq, Repr

/-- The negation of a `double`. -/
def DoubleValue.neg {K : Type} [LinearOrderedField K] : DoubleValue K → DoubleValue K
  | .finite x => .finite (-x)
  | .posInf => .negInf
  | .negInf => .posInf
  | .nan => .nan

/-- The sum of two `double`s: the sum of the two infinities is a NaN. -/
def DoubleValue.add {K : Type} [LinearOrderedField K] :
    DoubleValue K → DoubleValue K → DoubleValue K
  | .finite x, .finite y => .finite (x + y)
  | .finite _, .posInf => .posInf
  | .finite _, .negInf => .negInf
  | .posInf, .finite _ => .posInf
  | .posInf, .posInf => .posInf
  | .posInf, .negInf => .nan
  | .negInf, .finite _ => .negInf
  | .negInf, .negInf => .negInf
  | .negInf, .posInf => .nan
  | .nan, _ => .nan
  | _, .nan => .nan

/-- The difference of two `double`s. -/
def DoubleValue.sub {K : Type} [LinearOrderedField K] (a b : DoubleValue K) : DoubleValue K :=
  a.add b.neg

/-- The infinity that has the sign of y, or the opposite sign when `positive`
is false; a NaN when y is 0. -/
def DoubleValue.signedInf {K : Type} [LinearOrderedField K] (positive : Bool) (y : K) :
    DoubleValue K :=
  if 0 < y then (if positive then .posInf else .negInf)
  else if y < 0 then (if positive then .negInf else .posInf)
  else .nan

/-- The product of two `double`s: an infinity times zero is a NaN. -/
def DoubleValue.mul {K : Type} [LinearOrderedField K] :
    DoubleValue K → DoubleValue K → DoubleValue K
  | .finite x, .finite y => .finite (x * y)
  | .finite x, .posInf => DoubleValue.signedInf true x
  | .finite x, .negInf => DoubleValue.signedInf false x
  | .posInf, .finite y => DoubleValue.signedInf true y
  | .negInf, .finite y => DoubleValue.signedInf false y
  | .posInf, .posInf => .posInf
  | .posInf, .negInf => .negInf
  | .negInf, .posInf => .negInf
  | .negInf, .negInf => .posInf
  | .nan, _ => .nan
  | _, .nan => .nan

/-- The quotient of two `double`s: a non-zero number by zero is an infinity,
zero by zero and an infinity by an infinity are a NaN, a finite number by an
infinity is zero. -/
def DoubleValue.div {K : Type} [LinearOrderedField K] :
    DoubleValue K → DoubleValue K → DoubleValue K
  | .finite x, .finite y => if y = 0 then DoubleValue.signedInf true x else .finite (x / y)
  | .finite _, .posInf => .finite 0
  | .finite _, .negInf => .finite 0
  | .posInf, .finite y => if y < 0 then .negInf else .posInf
  | .negInf, .finite y => if y < 0 then .posInf else .negInf
  | .posInf, .posInf => .nan
  | .posInf, .negInf => .nan
  | .negInf, .posInf => .nan
  | .negInf, .negInf => .nan
  | .nan, _ => .nan
  | _, .nan => .nan

/-- The data member of `NumberGeneratorExponential`
(numbergeneratorexponential.h) that `mean()` returns. -/
structure NumberGeneratorExponential (K : Type) where
  mean_ : K
deriving DecidableEq, Repr

/-- The data members of `Failure` (failure.h) that `set_availability_mttr`
sets: the availability, the mean time to repair and the number generators of
the interval between failures and of their duration. -/
structure PercentFailure (K : Type) where
  availability_ : K
  mttr_ : K
  failure_interval_ : NumberGeneratorExponential K
  failure_duration_ : NumberGeneratorExponential K
deriving DecidableEq, Repr

/-- Modelled from the spec: the mean time between failures that
`Failure::set_availability_mttr` computes (body missing), the solution
MTBF = m · a / (1 − a) of m / (m + MTBF) = 1 − a for an availability a, a
fraction, and a mean time to repair m, computed in `double`. -/
def mean_time_between_failures {K : Type} [LinearOrderedField K]
    (availability mttr : DoubleValue K) : DoubleValue K :=
  (mttr.mul availability).div ((DoubleValue.finite 1).sub availability)

/-- Modelled from the spec: `Failure::set_availability_mttr(availability, mttr)`
(body missing): the interval between failures and their duration are
exponential with the means MTBF and mttr. -/
def PercentFailure.set_availability_mttr {K : Type} [LinearOrderedField K]
    (f : PercentFailure (DoubleValue K)) (availability mttr : DoubleValue K) :
    PercentFailure (DoubleValue K) :=
  { f with
    availability_ := availability,
    mttr_ := mttr,
    failure_interval_ := ⟨mean_time_between_failures availability mttr⟩,
    failure_duration_ := ⟨mttr⟩ }

/-- The unavailability m / (m + MTBF) of a configured failure, computed in
`double` from its mean time to repair and the mean of its interval
generator. -/
def PercentFailure.unavailability {K : Type} [LinearOrderedField K]
    (f : PercentFailure (DoubleValue K)) : DoubleValue K :=
  f.mttr_.div (f.mttr_.add f.failure_interval_.mean_)

/-- A failure of type PERCENT before it is configured. -/
def blankPercentFailure : PercentFailure (DoubleValue ℚ) :=
  { availability_ := .finite 0, mttr_ := .finite 0, failure_interval_ := ⟨.finite 0⟩,
    failure_duration_ := ⟨.finite 0⟩ }

/-! ## node.h, buffer.h : the occupation of a node

node.h declares `content_size()` and `max_occupation()`, "the most amount of
entities that have been present at any given time on this node", and the node
classes declare the members that hold the content and the statistics
(buffer.h: `buffer_`, `max_occupied_`, `min_occupied_`). The bodies that
maintain them are not among the sources; they are modelled from the
documentation of the declarations and section 3 of the specification. -/

/-- The data members of a node that hold its content and its occupation
statistics. -/
structure NodeOccupation where
  content_ : List Nat
  max_occupied_ : Nat
  min_occupied_ : Nat
deriving DecidableEq, Repr

/-- Modelled from the spec: `Node::content_size()` (body missing): how many
entities the node has. -/
def NodeOccupation.content_size (n : NodeOccupation) : Nat := n.content_.length

/-- Modelled from the spec: `Node::max_occupation()` (body missing): the most
entities that have been present at any given time on the node. -/
def NodeOccupation.max_occupation (n : NodeOccupation) : Nat := n.max_occupied_

/-- Modelled from the spec: `Node::min_occupation()` (body missing): the least
entities that have been present at any given time on the node. -/
def NodeOccupation.min_occupation (n : NodeOccupation) : Nat := n.min_occupied_

/-- Modelled from the spec: the node after `init()` (body missing): no entity,
and the statistics of an empty node. -/
def NodeOccupation.init : NodeOccupation :=
  { content_ := [], max_occupied_ := 0, min_occupied_ := 0 }

/-- Modelled from the spec: `Node::enter(entity, departure)` (body missing), as
far as the content goes: the entity joins the content and the maximum
occupation follows. -/
def NodeOccupation.enter (n : NodeOccupation) (entity : Nat) : NodeOccupation :=
  { n with
    content_ := n.content_ ++ [entity],
    max_occupied_ := max n.max_occupied_ (n.content_.length + 1) }

/-- Modelled from the spec: `Node::leave(entity, destination)` (body missing), as
far as the content goes: the entity leaves the content and the minimum
occupation follows. -/
def NodeOccupation.leave (n : NodeOccupation) (entity : Nat) : NodeOccupation :=
  { n with
    content_ := n.content_.erase entity,
    min_occupied_ := min n.min_occupied_ (n.content_.erase entity).length }

/-- Modelled from the spec: `Node::reset_stats()` (body missing), as far as the
occupation goes: the statistics collected so far are dropped, so that the
extremes are those of the present content. -/
def NodeOccupation.reset_stats (n : NodeOccupation) : NodeOccupation :=
  { n with max_occupied_ := n.content_.length, min_occupied_ := n.content_.length }

/-- What happens to a node in a simulation, as far as its content goes. -/
inductive NodeCall where
  | enter (entity : Nat)
  | leave (entity : Nat)
  | reset_stats
deriving DecidableEq, Repr

/-- The effect of a call on a node. -/
def NodeOccupation.exec (n : NodeOccupation) : NodeCall → NodeOccupation
  | .enter e => n.enter e
  | .leave e => n.leave e
  | .reset_stats => n.reset_stats

/-- The node reached from the initial node by a sequence of calls. -/
def NodeOccupation.reached (calls : List NodeCall) : NodeOccupation :=
  calls.foldl NodeOccupation.exec NodeOccupation.init

/-- The constructor `EventOut::EventOut(entity, departure, destination, priority)`
with a priority given (eventout.h), as `ExitPort::schedule_event_out` creates
the out event for the priority it is called with. -/
def EventOut.withPriority {T : Type} (id : Nat) (priority : Int) (time : T) : Event T :=
  Event.new id priority time

/-- The set-up calls of run E: two out events with priority OUT and then an out
event with priority OUT_UNBLOCKED, all for time 0. -/
def runECalls : List (ScheduleCall Int) :=
  [.schedule (EventOut.withPriority 1 PRIORITY_OUT 0) 0,
   .schedule (EventOut.withPriority 2 PRIORITY_OUT 0) 0,
   .schedule (EventOut.withPriority 3 PRIORITY_OUT_UNBLOCKED 0) 0]

/-- The events of run E: the out event 3 schedules the out event 4 with
priority OUT_UNBLOCKED at the current time. -/
def runEProcess : Event Int → Simulation Int → List (ScheduleCall Int) :=
  fun e _ =>
    if e.id = 3 then [.schedule (EventOut.withPriority 4 PRIORITY_OUT_UNBLOCKED 0) 0] else []

/-- The set-up calls of run F: the out events 1 and 3 with priority OUT, both
for time 0. -/
def runFCalls : List (ScheduleCall Int) :=
  [.schedule (EventOut.withPriority 1 PRIORITY_OUT 0) 0,
   .schedule (EventOut.withPriority 3 PRIORITY_OUT 0) 0]

/-- The events of run F: the out event 1, when processed, schedules the out
event 2 with priority OUT_UNBLOCKED at the current time, as for an entity that
the departure has unblocked. -/
def runFProcess : Event Int → Simulation Int → List (ScheduleCall Int) :=
  fun e _ =>
    if e.id = 1 then [.schedule (EventOut.withPriority 2 PRIORITY_OUT_UNBLOCKED 0) 0] else []

/-- C2: the event priority constants of common.h equal the normative priority
table: every constant listed in a row of the table has that row's value. -/
theorem C2_priority_constants :
    PRIORITY_NOW = -1 ∧
    PRIORITY_RESET_STATS = 0 ∧ PRIORITY_ANIMATE_CONVEYOR = 0 ∧
    PRIORITY_SHIFT_CALENDAR_START = 1 ∧
    PRIORITY_OUT_UNBLOCKED = 2 ∧ PRIORITY_UPDATE_CONVEYOR = 2 ∧
    PRIORITY_SHIFT = 3 ∧ PRIORITY_CREATEDEMAND = 3 ∧
    PRIORITY_STARTNEWBATCH = 4 ∧ PRIORITY_TAKTCOMPLETE_UNBLOCKED = 4 ∧
    PRIORITY_DISRUPTION_BEGIN_PROCESSING = 4 ∧ PRIORITY_BREAK = 4 ∧
    PRIORITY_DISRUPTION_BEGIN = 5 ∧ PRIORITY_OUT = 5 ∧ PRIORITY_CREATEMU = 5 ∧
    PRIORITY_SETUP = 5 ∧ PRIORITY_DISASSEMBLY = 5 ∧ PRIORITY_ASSEMBLY = 5 ∧
    PRIORITY_CONVEYOR_OPEN = 6 ∧ PRIORITY_REQUEST_RESOURCES = 6 ∧
    PRIORITY_RESOURCE_READY = 6 ∧ PRIORITY_DISRUPTION_END = 6 ∧
    PRIORITY_TAKTCOMPLETE = 7 ∧ PRIORITY_ENTRYTIMEOUT = 7 ∧
    PRIORITY_TRIGGERSYNCHRONIZEDEXITS = 7 ∧
    PRIORITY_TIMECALLBACK = 8 ∧
    (∀ row ∈ priorityTable, ∀ c ∈ row.2, c = row.1) := by
  decide

/-- C3 (as stated, refuted): at the same time 0 a resource-ready event with its
default priority is not ordered before an out event with its default priority;
it is the out event that occurs first. -/
theorem C3_resource_ready_not_before_out :
    ¬ (EventSetupResourceReady.default 1 (0 : Int)).occursBefore (EventOut.default 2 (0 : Int)) ∧
    (EventOut.default 2 (0 : Int)).occursBefore (EventSetupResourceReady.default 1 (0 : Int)) := by
  decide

/-- C3 (amended): for any two events at the same simulation time, an out event
created with its default priority PRIORITY_OUT (5) occurs before a
resource-ready event created with its default priority PRIORITY_RESOURCE_READY
(6), and never the other way round. -/
theorem C3_out_before_resource_ready {T : Type} [LinearOrder T] (t : T) (i j : Nat) :
    (EventOut.default i t).occursBefore (EventSetupResourceReady.default j t) ∧
    ¬ (EventSetupResourceReady.default j t).occursBefore (EventOut.default i t) := by
  constructor
  · right
    refine ⟨rfl, ?_⟩
    show PRIORITY_OUT < PRIORITY_RESOURCE_READY
    decide
  · rintro (h | ⟨_, h⟩)
    · exact lt_irrefl _ h
    · have h' : PRIORITY_RESOURCE_READY < PRIORITY_OUT := h
      exact absurd h' (by decide)

/-- C6: `BlockItemSorter(a, b)` is true exactly when the key (time, successor
order, sequence) of `a` is lexicographically strictly less than the key of
`b`; the relation is irreflexive and transitive, and incomparability is
transitive, so it is a strict weak ordering. -/
theorem C6_block_item_sorter {T : Type} [LinearOrder T] :
    (∀ a b : BlockItem T, BlockItemSorter a b = true ↔ a.key < b.key) ∧
    (∀ a : BlockItem T, BlockItemSorter a a = false) ∧
    (∀ a b c : BlockItem T, BlockItemSorter a b = true → BlockItemSorter b c = true →
      BlockItemSorter a c = true) ∧
    (∀ a b c : BlockItem T, BlockItemSorter a b = false → BlockItemSorter b a = false →
      BlockItemSorter b c = false → BlockItemSorter c b = false →
      BlockItemSorter a c = false ∧ BlockItemSorter c a = false) := by
  have key : ∀ a b : BlockItem T, BlockItemSorter a b = true ↔ a.key < b.key := by
    intro a b
    unfold BlockItemSorter BlockItem.key
    rw [Prod.Lex.lt_iff]
    simp only [ofLex_toLex]
    rw [Prod.Lex.lt_iff]
    simp only [ofLex_toLex]
    by_cases h1 : a.time < b.time
    · simp [h1]
    · by_cases h2 : a.time = b.time
      · by_cases h3 : a.sucessor_order < b.sucessor_order
        · simp [h2, h3]
        · by_cases h4 : a.sucessor_order = b.sucessor_order
          · simp [h2, h4]
          · simp [h2, h3, h4]
      · simp [h1, h2]
  have nkey : ∀ a b : BlockItem T, BlockItemSorter a b = false ↔ ¬ a.key < b.key := by
    intro a b
    rw [← key a b]
    simp
  refine ⟨key, ?_, ?_, ?_⟩
  · intro a
    rw [nkey]
    exact lt_irrefl _
  · intro a b c hab hbc
    rw [key] at *
    exact lt_trans hab hbc
  · intro a b c h1 h2 h3 h4
    rw [nkey] at h1 h2 h3 h4
    rw [nkey, nkey]
    have hab : a.key = b.key := le_antisymm (not_lt.mp h2) (not_lt.mp h1)
    have hbc : b.key = c.key := le_antisymm (not_lt.mp h4) (not_lt.mp h3)
    rw [hab, hbc]
    exact ⟨lt_irrefl _, lt_irrefl _⟩

/-- C7: `a > b` on shifting bottlenecks holds exactly when the total
sole + shifting of `a` is greater than the total of `b`; two values with equal
totals are not greater than one another. -/
theorem C7_shifting_bottleneck_gt {T : Type} [LinearOrder T] [Add T] :
    (∀ a b : ShiftingBottleneck T,
      a.gt b = true ↔ a.sole_ + a.shifting_ > b.sole_ + b.shifting_) ∧
    (∀ a b : ShiftingBottleneck T, a.sole_ + a.shifting_ = b.sole_ + b.shifting_ →
      a.gt b = false ∧ b.gt a = false) := by
  constructor
  · intro a b
    unfold ShiftingBottleneck.gt
    by_cases h : a.sole_ + a.shifting_ > b.sole_ + b.shifting_ <;> simp [h]
  · intro a b h
    unfold ShiftingBottleneck.gt
    simp [h]


/-! ### The priority signal -/

theorem minKey_mem {l : List Int} {m : Int} (h : minKey l = some m) : m ∈ l := by
  induction l generalizing m with
  | nil => simp [minKey] at h
  | cons k ks ih =>
    unfold minKey at h
    cases hk : minKey ks with
    | none =>
      rw [hk] at h
      simp only [Option.some.injEq] at h
      simp [h]
    | some m' =>
      rw [hk] at h
      simp only [Option.some.injEq] at h
      have hm := ih hk
      rcases min_choice k m' with h' | h'
      · rw [h'] at h
        simp [h]
      · rw [h'] at h
        rw [← h]
        exact List.mem_cons_of_mem _ hm

theorem nextKey_gt {m : List (Int × List Nat)} {c k : Int}
    (h : nextKey m (some c) = some k) : c < k := by
  have := minKey_mem h
  simpa using (List.mem_filter.mp this).2

theorem nextKey_mem {m : List (Int × List Nat)} {v : Option Int} {k : Int}
    (h : nextKey m v = some k) : k ∈ m.map Prod.fst := by
  cases v with
  | none => exact minKey_mem h
  | some c => exact (List.mem_filter.mp (minKey_mem h)).1

theorem applyAction_firing (s : PrioritySignal) (a : SignalAction) :
    (applyAction s a).firing_ = s.firing_ ∧
    (applyAction s a).current_priority_ = s.current_priority_ := by
  cases a with
  | connect h p =>
    simp only [applyAction, PrioritySignal.connect]
    split <;> simp
  | disconnect h p =>
    simp only [applyAction, PrioritySignal.disconnect]
    split <;> simp

theorem applyActions_firing (s : PrioritySignal) (actions : List SignalAction) :
    (applyActions s actions).firing_ = s.firing_ ∧
    (applyActions s actions).current_priority_ = s.current_priority_ := by
  induction actions generalizing s with
  | nil => simp [applyActions]
  | cons a as ih =>
    have h1 := applyAction_firing s a
    have h2 := ih (applyAction s a)
    simp only [applyActions, List.foldl_cons] at h2 ⊢
    exact ⟨h2.1.trans h1.1, h2.2.trans h1.2⟩

theorem fireBucket_firing (beh : Nat → PrioritySignal → List SignalAction)
    (s : PrioritySignal) (handlers : List Nat) :
    (fireBucket beh s handlers).firing_ = s.firing_ ∧
    (fireBucket beh s handlers).current_priority_ = s.current_priority_ := by
  induction handlers generalizing s with
  | nil => simp [fireBucket]
  | cons h hs ih =>
    have h1 := applyActions_firing s (beh h s)
    have h2 := ih (applyActions s (beh h s))
    simp only [fireBucket, List.foldl_cons] at h2 ⊢
    exact ⟨h2.1.trans h1.1, h2.2.trans h1.2⟩

/-- While the signal is firing, a connect call with a priority that is at most
the priority being fired changes nothing. -/
theorem connect_late (s : PrioritySignal) (h : Nat) (p : Int)
    (hf : s.firing_ = true) (hp : p ≤ s.current_priority_) :
    s.connect h p = (false, s) := by
  simp [PrioritySignal.connect, hf, hp]

theorem applyActions_dropLate (s : PrioritySignal) (actions : List SignalAction)
    (hf : s.firing_ = true) :
    applyActions s (dropLateConnects s.current_priority_ actions) = applyActions s actions := by
  induction actions generalizing s with
  | nil => rfl
  | cons a as ih =>
    have hkeep := applyAction_firing s a
    have ih' := ih (applyAction s a) (hkeep.1.trans hf)
    rw [hkeep.2] at ih'
    cases a with
    | connect g p =>
      by_cases hp : s.current_priority_ < p
      · simp only [dropLateConnects, List.filter_cons, hp, decide_True, if_true, applyActions,
          List.foldl_cons] at ih' ⊢
        exact ih'
      · have hle : p ≤ s.current_priority_ := not_lt.mp hp
        have hsame : applyAction s (SignalAction.connect g p) = s := by
          simp [applyAction, connect_late s g p hf hle]
        rw [hsame] at ih'
        simp only [dropLateConnects, List.filter_cons, hp, decide_False, applyActions,
          List.foldl_cons, hsame] at ih' ⊢
        exact ih'
    | disconnect g p =>
      simp only [dropLateConnects, List.filter_cons, if_true, applyActions,
        List.foldl_cons] at ih' ⊢
      exact ih'

theorem fireBucket_dropLate (beh : Nat → PrioritySignal → List SignalAction)
    (s : PrioritySignal) (handlers : List Nat) (hf : s.firing_ = true) :
    fireBucket (fun h st => dropLateConnects st.current_priority_ (beh h st)) s handlers =
      fireBucket beh s handlers := by
  induction handlers generalizing s with
  | nil => rfl
  | cons h hs ih =>
    simp only [fireBucket, List.foldl_cons] at ih ⊢
    rw [applyActions_dropLate s (beh h s) hf]
    exact ih _ ((applyActions_firing s (beh h s)).1.trans hf)

theorem fireLoop_dropLate (beh : Nat → PrioritySignal → List SignalAction) :
    ∀ (n : Nat) (s : PrioritySignal) (visited : Option Int) (log : List (Int × List Nat)),
      s.firing_ = true →
      fireLoop (fun h st => dropLateConnects st.current_priority_ (beh h st)) n s visited log =
        fireLoop beh n s visited log := by
  intro n
  induction n with
  | zero => intro s visited log _; rfl
  | succ n ih =>
    intro s visited log hf
    unfold fireLoop
    cases hk : nextKey s.signals_ visited with
    | none => rfl
    | some k =>
      simp only
      have hf1 : ({ s with current_priority_ := k } : PrioritySignal).firing_ = true := hf
      rw [fireBucket_dropLate beh _ _ hf1]
      exact ih _ _ _ ((fireBucket_firing beh _ _).1.trans hf1)

/-- C5 (as stated, refuted): handler 0, while the bucket of priority 0 is being
fired, connects handler 1 at priority 0; handler 1 is invoked neither by that
fire nor by the next one. The same happens when handler 0, fired at priority 5,
connects handler 1 at the already fired priority 2. -/
theorem C5_late_connect_never_invoked :
    (lateSignalA.fire lateBehA).2 = [(0, [0])] ∧
    ((lateSignalA.fire lateBehA).1.fire lateBehA).2 = [(0, [0])] ∧
    (∀ e ∈ ((lateSignalA.fire lateBehA).1.fire lateBehA).2, 1 ∉ e.2) ∧
    (lateSignalB.fire lateBehB).2 = [(2, [7]), (5, [0])] ∧
    ((lateSignalB.fire lateBehB).1.fire lateBehB).2 = [(2, [7]), (5, [0])] ∧
    (∀ e ∈ ((lateSignalB.fire lateBehB).1.fire lateBehB).2, 1 ∉ e.2) := by
  decide

/-- C5 (amended): if, while the signal is firing the bucket of priority c, a
handler is connected with a priority p ≤ c, then connect returns false and
leaves the signal as it is, so the running handler continues as if the call
had not been made; and a whole fire in which the handlers make such calls has
the same log and leaves the same signal (hence the same next fire) as the fire
in which they do not make them. -/
theorem C5_late_connect_rejected (beh : Nat → PrioritySignal → List SignalAction)
    (s0 s : PrioritySignal) (h : Nat) (p : Int) (rest : List SignalAction)
    (hf : s.firing_ = true) (hp : p ≤ s.current_priority_) :
    s.connect h p = (false, s) ∧
    applyActions s (SignalAction.connect h p :: rest) = applyActions s rest ∧
    s0.fire (fun g st => dropLateConnects st.current_priority_ (beh g st)) = s0.fire beh := by
  refine ⟨connect_late s h p hf hp, ?_, ?_⟩
  · simp [applyActions, applyAction, connect_late s h p hf hp]
  · unfold PrioritySignal.fire
    simp only
    rw [fireLoop_dropLate beh _ _ _ _ rfl]

/-- A witness for C5 (amended): the signal firing priority 5 with handler 0
connected there, and a connect call for handler 1 at the fired priority 2. -/
theorem C5_late_connect_rejected_witness :
    (lateSignalFiring.firing_ = true ∧ (2 : Int) ≤ lateSignalFiring.current_priority_) ∧
    (lateSignalFiring.connect 1 2 = (false, lateSignalFiring) ∧
     applyActions lateSignalFiring (SignalAction.connect 1 2 :: [SignalAction.disconnect 7 2]) =
       applyActions lateSignalFiring [SignalAction.disconnect 7 2] ∧
     lateSignalB.fire (fun g st => dropLateConnects st.current_priority_ (lateBehB g st)) =
       lateSignalB.fire lateBehB) :=
  ⟨by decide,
   C5_late_connect_rejected lateBehB lateSignalB lateSignalFiring 1 2
     [SignalAction.disconnect 7 2] rfl (by decide)⟩

/-! ### The bound on the loop of `fire` -/

theorem mem_setBucket {m : List (Int × List Nat)} {p : Int} {b : List Nat} {kv : Int × List Nat}
    (h : kv ∈ setBucket m p b) : kv ∈ m ∨ kv.1 = p := by
  unfold setBucket at h
  split at h
  · obtain ⟨kv0, hkv0, hEq⟩ := List.mem_map.mp h
    by_cases hk : kv0.1 = p
    · rw [if_pos hk] at hEq
      right
      rw [← hEq]
    · rw [if_neg hk] at hEq
      left
      rw [← hEq]
      exact hkv0
  · rcases List.mem_append.mp h with h | h
    · exact Or.inl h
    · right
      simp only [List.mem_singleton] at h
      rw [h]

theorem applyAction_keysInRange (s : PrioritySignal) (a : SignalAction)
    (hs : KeysInRange s) (ha : INT_LOWEST ≤ a.priority ∧ a.priority ≤ INT_MAX) :
    KeysInRange (applyAction s a) := by
  cases a with
  | connect h p =>
    simp only [applyAction, PrioritySignal.connect]
    split
    · exact hs
    · intro kv hkv
      rcases mem_setBucket hkv with h1 | h1
      · exact hs kv h1
      · rw [h1]
        exact ha
  | disconnect h p =>
    simp only [applyAction, PrioritySignal.disconnect]
    split
    · exact hs
    · intro kv hkv
      rcases mem_setBucket hkv with h1 | h1
      · exact hs kv h1
      · rw [h1]
        exact ha

theorem applyActions_keysInRange (s : PrioritySignal) (actions : List SignalAction)
    (hs : KeysInRange s)
    (ha : ∀ a ∈ actions, INT_LOWEST ≤ a.priority ∧ a.priority ≤ INT_MAX) :
    KeysInRange (applyActions s actions) := by
  induction actions generalizing s with
  | nil => exact hs
  | cons a as ih =>
    simp only [applyActions, List.foldl_cons]
    exact ih _ (applyAction_keysInRange s a hs (ha a (List.mem_cons_self _ _)))
      (fun x hx => ha x (List.mem_cons_of_mem _ hx))

theorem fireBucket_keysInRange (beh : Nat → PrioritySignal → List SignalAction)
    (hb : ActionsInRange beh) (s : PrioritySignal) (handlers : List Nat)
    (hs : KeysInRange s) : KeysInRange (fireBucket beh s handlers) := by
  induction handlers generalizing s with
  | nil => exact hs
  | cons h hs' ih =>
    simp only [fireBucket, List.foldl_cons]
    exact ih _ (applyActions_keysInRange s _ hs (hb h s))

theorem nextKey_inRange {s : PrioritySignal} (hs : KeysInRange s) {v : Option Int} {k : Int}
    (h : nextKey s.signals_ v = some k) : INT_LOWEST ≤ k ∧ k ≤ INT_MAX := by
  obtain ⟨kv, hkv, rfl⟩ := List.mem_map.mp (nextKey_mem h)
  exact hs kv hkv

/-- Once the key c has been visited, any two bounds of at least INT_MAX − c
iterations give the same result: the loop ends because no key is left. -/
theorem fireLoop_bound_irrelevant (beh : Nat → PrioritySignal → List SignalAction)
    (hb : ActionsInRange beh) :
    ∀ (n m : Nat) (s : PrioritySignal) (c : Int) (log : List (Int × List Nat)),
      KeysInRange s → INT_MAX - c ≤ n → INT_MAX - c ≤ m →
      fireLoop beh n s (some c) log = fireLoop beh m s (some c) log := by
  intro n
  induction n with
  | zero =>
    intro m s c log hs hn _
    have hnone : nextKey s.signals_ (some c) = none := by
      cases hk : nextKey s.signals_ (some c) with
      | none => rfl
      | some k =>
        have h1 := nextKey_gt hk
        have h2 := (nextKey_inRange hs hk).2
        simp only [Nat.cast_zero] at hn
        omega
    cases m with
    | zero => rfl
    | succ m => simp [fireLoop, hnone]
  | succ n ih =>
    intro m s c log hs hn hm
    cases m with
    | zero =>
      have hnone : nextKey s.signals_ (some c) = none := by
        cases hk : nextKey s.signals_ (some c) with
        | none => rfl
        | some k =>
          have h1 := nextKey_gt hk
          have h2 := (nextKey_inRange hs hk).2
          simp only [Nat.cast_zero] at hm
          omega
      simp [fireLoop, hnone]
    | succ m =>
      unfold fireLoop
      cases hk : nextKey s.signals_ (some c) with
      | none => rfl
      | some k =>
        simp only
        have h1 := nextKey_gt hk
        apply ih
        · apply fireBucket_keysInRange beh hb
          exact hs
        · push_cast at hn
          omega
        · push_cast at hm
          omega

/-- For priorities of type `int` the bound `INT_VALUES` on the loop of `fire` is
never reached with a key left: any larger bound gives the same result. -/
theorem fire_bound_enough (beh : Nat → PrioritySignal → List SignalAction)
    (hb : ActionsInRange beh) (s : PrioritySignal) (hs : KeysInRange s) (n : Nat)
    (hn : INT_VALUES ≤ n) (log : List (Int × List Nat)) :
    fireLoop beh n { s with firing_ := true } none log =
      fireLoop beh INT_VALUES { s with firing_ := true } none log := by
  obtain ⟨n', rfl⟩ : ∃ n', n = n' + 1 := ⟨n - 1, by unfold INT_VALUES at hn; omega⟩
  have hv : INT_VALUES = 4294967295 + 1 := rfl
  rw [hv]
  unfold fireLoop
  cases hk : nextKey ({ s with firing_ := true } : PrioritySignal).signals_ none with
  | none => rfl
  | some k =>
    simp only
    have hs' : KeysInRange ({ s with firing_ := true } : PrioritySignal) := hs
    have hr := nextKey_inRange hs' hk
    apply fireLoop_bound_irrelevant beh hb
    · apply fireBucket_keysInRange beh hb
      exact hs'
    · unfold INT_VALUES at hn
      unfold INT_MAX
      unfold INT_LOWEST at hr
      omega
    · unfold INT_MAX
      unfold INT_LOWEST at hr
      omega


/-- A run of `fire` with negative priorities: the buckets -3, 0 and 4 are fired
in this order, and handler 3, connected at priority 4 while priority 0 is
fired, is invoked in the same fire. -/
theorem fire_example :
    (((PrioritySignal.new.connect 0 0).2.connect 2 (-3)).2.fire
      (fun h _ => if h = 0 then [SignalAction.connect 1 0, SignalAction.connect 3 4]
        else [])).2 = [(-3, [2]), (0, [0]), (4, [3])] := by
  decide


/-! ### The event list -/

theorem Pending.key_ne_of_seq_ne {T : Type} {a b : Pending T} (h : a.seq ≠ b.seq) :
    a.key ≠ b.key := by
  intro hk
  apply h
  unfold Pending.key at hk
  have h1 := congrArg (fun k => (ofLex (ofLex (ofLex k).2).2).2) hk
  simpa using h1

theorem mem_insertByKey {T : Type} [LinearOrder T] (e x : Pending T) (l : List (Pending T)) :
    x ∈ insertByKey e l ↔ x = e ∨ x ∈ l := by
  induction l with
  | nil => simp [insertByKey]
  | cons y ys ih =>
    unfold insertByKey
    split
    · simp
    · simp only [List.mem_cons, ih]
      tauto

theorem insertByKey_sorted {T : Type} [LinearOrder T] (e : Pending T) (l : List (Pending T))
    (hl : List.Pairwise (fun a b : Pending T => a.key < b.key) l)
    (hne : ∀ x ∈ l, x.key ≠ e.key) :
    List.Pairwise (fun a b : Pending T => a.key < b.key) (insertByKey e l) := by
  induction l with
  | nil => simp [insertByKey]
  | cons y ys ih =>
    unfold insertByKey
    rw [List.pairwise_cons] at hl
    split
    · rename_i hlt
      rw [List.pairwise_cons]
      refine ⟨?_, List.pairwise_cons.mpr hl⟩
      intro z hz
      rcases List.mem_cons.mp hz with rfl | hz
      · exact hlt
      · exact lt_trans hlt (hl.1 z hz)
    · rename_i hnlt
      rw [List.pairwise_cons]
      refine ⟨?_, ih hl.2 (fun x hx => hne x (List.mem_cons_of_mem _ hx))⟩
      intro z hz
      rcases (mem_insertByKey e z ys).mp hz with rfl | hz
      · exact lt_of_le_of_ne (not_lt.mp hnlt) (hne y (List.mem_cons_self _ _))
      · exact hl.1 z hz

theorem schedule_sorted {T : Type} [LinearOrder T] [Add T] (s : Simulation T)
    (evt : Event T) (time : T) (h : QueueSorted s) : QueueSorted (s.schedule evt time) := by
  obtain ⟨hs, hq⟩ := h
  constructor
  · apply insertByKey_sorted _ _ hs
    intro x hx
    apply Pending.key_ne_of_seq_ne
    exact Nat.ne_of_lt (hq x hx)
  · intro x hx
    rcases (mem_insertByKey _ x _).mp hx with rfl | hx
    · exact Nat.lt_succ_self _
    · exact Nat.lt_succ_of_lt (hq x hx)

theorem exec_schedules_sorted {T : Type} [LinearOrder T] [Add T] [Zero T]
    (calls : List (ScheduleCall T)) (s : Simulation T)
    (hc : ∀ c ∈ calls, c.isSchedule = true) (h : QueueSorted s) :
    QueueSorted (calls.foldl Simulation.exec s) := by
  induction calls generalizing s with
  | nil => exact h
  | cons c cs ih =>
    rw [List.foldl_cons]
    apply ih _ (fun c' hc' => hc c' (List.mem_cons_of_mem _ hc'))
    have hc1 := hc c (List.mem_cons_self _ _)
    cases c with
    | schedule evt time => exact schedule_sorted s evt time h
    | schedule_before evt ins time => simp [ScheduleCall.isSchedule] at hc1
    | schedule_now evt => simp [ScheduleCall.isSchedule] at hc1

theorem simulate_pops_least {T : Type} [LinearOrder T] [Add T] [Zero T]
    (process : Event T → Simulation T → List (ScheduleCall T))
    (hproc : ∀ e s, ∀ c ∈ process e s, c.isSchedule = true) :
    ∀ (n : Nat) (s : Simulation T), QueueSorted s →
      ∀ pop ∈ Simulation.simulate process n s, ∀ q ∈ pop.2, pop.1.key < q.key := by
  intro n
  induction n with
  | zero => intro s _ pop hpop; simp [Simulation.simulate] at hpop
  | succ n ih =>
    intro s hs pop hpop
    unfold Simulation.simulate Simulation.simulate_step at hpop
    cases hev : s.events_ with
    | nil => simp [hev] at hpop
    | cons p rest =>
      simp only [hev] at hpop
      have hsorted := hs.1
      rw [hev, List.pairwise_cons] at hsorted
      rcases List.mem_cons.mp hpop with rfl | hpop
      · exact hsorted.1
      · refine ih _ ?_ pop hpop
        apply exec_schedules_sorted _ _ (hproc _ _)
        refine ⟨hsorted.2, ?_⟩
        intro x hx
        exact hs.2 x (by rw [hev]; exact List.mem_cons_of_mem _ hx)

/-- C1 (as stated, refuted): three runs of the event loop in which the keys of
the pops are not ascending. In run A an event processed at time 0 with
priority 5 schedules an event at the same time with priority 2, which is
popped after it. In run B two events are enqueued with `schedule_now`: they are
popped after the current event with the smaller marker priority, the later one
first. In run C an event of priority 8 is enqueued with `schedule_before` an
event of priority 5 and popped before it. -/
theorem C1_pops_not_key_ordered :
    runA.map (fun p => (p.1.evt.id, p.1.evt.time_, p.1.evt.priority_, p.1.seq)) =
      [(1, 0, 5, 0), (2, 0, 2, 1)] ∧
    ¬ List.Pairwise (· < ·) (popKeys runA) ∧
    runB.map (fun p => (p.1.evt.id, p.1.evt.time_, p.1.evt.priority_, p.1.seq)) =
      [(1, 0, 5, 0), (3, 0, -1, 2), (2, 0, -1, 1)] ∧
    ¬ List.Pairwise (· < ·) (popKeys runB) ∧
    ¬ List.Pairwise (· < ·) (popKeys runB).tail ∧
    runC.map (fun p => (p.1.evt.id, p.1.evt.time_, p.1.evt.priority_, p.1.seq)) =
      [(1, 0, 5, 0), (3, 1, 8, 2), (2, 1, 5, 1)] ∧
    ¬ List.Pairwise (· < ·) (popKeys runC) := by
  decide

/-- C1 (amended): in every run of the event loop in which the events are
enqueued with `schedule` only, by the set-up and by the events processed, each
event popped has a key (time, priority, sub priority, insertion sequence)
lexicographically strictly less than the key of every event pending at the
moment it is popped; hence for p popped before q with q already pending when p
was popped, the key of p is less than the key of q. -/
theorem C1_schedule_only_pops_least_key {T : Type} [LinearOrder T] [Add T] [Zero T]
    (calls : List (ScheduleCall T))
    (process : Event T → Simulation T → List (ScheduleCall T)) (n : Nat)
    (hcalls : ∀ c ∈ calls, c.isSchedule = true)
    (hproc : ∀ e s, ∀ c ∈ process e s, c.isSchedule = true) :
    (∀ pop ∈ Simulation.simulate process n (Simulation.setup calls),
      ∀ q ∈ pop.2, pop.1.key < q.key) ∧
    (∀ (i j : Nat) (hi : i < (Simulation.simulate process n (Simulation.setup calls)).length)
      (hj : j < (Simulation.simulate process n (Simulation.setup calls)).length), i < j →
      (Simulation.simulate process n (Simulation.setup calls))[j].1 ∈
        (Simulation.simulate process n (Simulation.setup calls))[i].2 →
      (Simulation.simulate process n (Simulation.setup calls))[i].1.key <
        (Simulation.simulate process n (Simulation.setup calls))[j].1.key) := by
  have hinit : QueueSorted (Simulation.setup calls) := by
    unfold Simulation.setup
    apply exec_schedules_sorted _ _ hcalls
    exact ⟨by simp [Simulation.init], by simp [Simulation.init]⟩
  have h1 := simulate_pops_least process hproc n _ hinit
  refine ⟨h1, ?_⟩
  intro i j hi hj _ hmem
  exact h1 _ (List.getElem_mem hi) _ hmem

/-- A witness for C1 (amended): run D, in which all events are enqueued with
`schedule`. -/
theorem C1_schedule_only_pops_least_key_witness :
    (∀ c ∈ runDCalls, c.isSchedule = true) ∧
    (∀ e s, ∀ c ∈ runDProcess e s, c.isSchedule = true) ∧
    (Simulation.simulate runDProcess 9 (Simulation.setup runDCalls)).length = 4 ∧
    ((∀ pop ∈ Simulation.simulate runDProcess 9 (Simulation.setup runDCalls),
      ∀ q ∈ pop.2, pop.1.key < q.key) ∧
    (∀ (i j : Nat)
      (hi : i < (Simulation.simulate runDProcess 9 (Simulation.setup runDCalls)).length)
      (hj : j < (Simulation.simulate runDProcess 9 (Simulation.setup runDCalls)).length), i < j →
      (Simulation.simulate runDProcess 9 (Simulation.setup runDCalls))[j].1 ∈
        (Simulation.simulate runDProcess 9 (Simulation.setup runDCalls))[i].2 →
      (Simulation.simulate runDProcess 9 (Simulation.setup runDCalls))[i].1.key <
        (Simulation.simulate runDProcess 9 (Simulation.setup runDCalls))[j].1.key)) :=
  have h1 : ∀ c ∈ runDCalls, c.isSchedule = true := by decide
  have h2 : ∀ e s, ∀ c ∈ runDProcess e s, c.isSchedule = true := by
    intro e s c hc
    unfold runDProcess at hc
    split at hc
    · simp only [List.mem_singleton] at hc
      rw [hc]
      rfl
    · simp at hc
  ⟨h1, h2, by decide, C1_schedule_only_pops_least_key runDCalls runDProcess 9 h1 h2⟩

/-! ### Cancelling and resuming out events -/

/-- C9 (as stated, refuted): with `add_elapsed_time` false, an out event
scheduled for time 5 that is cancelled at time 0 and resumed at time 10 fires
at time 10, which is 5 later than its originally scheduled time, not 0. -/
theorem C9_resume_after_out_time_delays :
    (portWithOut false).out_events_.map (fun e => e.out_time_) = [5] ∧
    (((portWithOut false).cancel_out_events 0).schedule_canceled_out_events 10).out_events_.map
      (fun e => e.out_time_) = [10] ∧
    (10 : Int) - 5 ≠ 0 := by
  decide

/-- The out events of a port after cancelling at t1 and resuming at t2. -/
theorem cancel_resume_events {T : Type} [LinearOrderedAddCommGroup T]
    (port : ExitPort T) (t1 t2 : T)
    (hpending : ∀ e ∈ port.out_events_, t1 ≤ e.out_time_) :
    ((port.cancel_out_events t1).schedule_canceled_out_events t2).out_events_ =
      port.out_events_.map (fun e =>
        { e with out_time_ :=
            if port.add_elapsed_time_ = true then e.out_time_ + (t2 - t1)
            else max e.out_time_ t2 }) := by
  unfold ExitPort.schedule_canceled_out_events ExitPort.cancel_out_events
  simp only [if_true]
  apply List.map_congr_left
  intro e he
  have hp := hpending e he
  unfold ExitPort.get_remaining_out_event_time
  simp only
  cases hadd : port.add_elapsed_time_ with
  | true =>
    simp only [if_true]
    have hnn : ¬ (e.out_time_ - t1 < 0) := not_lt.mpr (sub_nonneg.mpr hp)
    rw [if_neg hnn]
    congr 1
    abel
  | false =>
    simp only [Bool.false_eq_true, if_false]
    congr 1
    by_cases hlt : e.out_time_ - t2 < 0
    · rw [if_pos hlt, add_zero]
      exact (max_eq_right (le_of_lt (sub_neg.mp hlt))).symm
    · rw [if_neg hlt]
      have hle : t2 ≤ e.out_time_ := sub_nonneg.mp (not_lt.mp hlt)
      rw [max_eq_left hle]
      abel

/-- C9 (amended): for every pending out event that is cancelled at time t1 and
resumed at time t2 ≥ t1, the time at which it fires is later than its
originally scheduled time by exactly t2 − t1 when `add_elapsed_time` is true;
when `add_elapsed_time` is false it fires at its originally scheduled time if
t2 is not later than that time, and at t2 otherwise. -/
theorem C9_cancel_resume_time {T : Type} [LinearOrderedAddCommGroup T]
    (port : ExitPort T) (t1 t2 : T) (h12 : t1 ≤ t2)
    (hpending : ∀ e ∈ port.out_events_, t1 ≤ e.out_time_) :
    ((port.cancel_out_events t1).schedule_canceled_out_events t2).out_events_ =
      port.out_events_.map (fun e =>
        { e with out_time_ :=
            if port.add_elapsed_time_ = true then e.out_time_ + (t2 - t1)
            else max e.out_time_ t2 }) ∧
    List.Forall₂ (fun e e' : EventOut T => e.out_time_ ≤ e'.out_time_ ∧ t2 ≤ e'.out_time_)
      port.out_events_
      ((port.cancel_out_events t1).schedule_canceled_out_events t2).out_events_ := by
  have hmain : ((port.cancel_out_events t1).schedule_canceled_out_events t2).out_events_ =
      port.out_events_.map (fun e =>
        { e with out_time_ :=
            if port.add_elapsed_time_ = true then e.out_time_ + (t2 - t1)
            else max e.out_time_ t2 }) := by
    exact cancel_resume_events port t1 t2 hpending
  refine ⟨hmain, ?_⟩
  rw [hmain, List.forall₂_map_right_iff, List.forall₂_same]
  intro e0 he0
  have hp := hpending e0 he0
  simp only
  split
  · have h1 : t2 = t1 + (t2 - t1) := by abel
    constructor
    · exact le_add_of_nonneg_right (sub_nonneg.mpr h12)
    · calc t2 = t1 + (t2 - t1) := h1
        _ ≤ e0.out_time_ + (t2 - t1) := add_le_add_right hp _
  · exact ⟨le_max_left _ _, le_max_right _ _⟩

/-- A witness for C9 (amended): the out event scheduled for time 5, cancelled at
time 2 and resumed at time 4, with `add_elapsed_time` true. -/
theorem C9_cancel_resume_time_witness :
    (2 : Int) ≤ 4 ∧ (∀ e ∈ (portWithOut true).out_events_, (2 : Int) ≤ e.out_time_) ∧
    ((((portWithOut true).cancel_out_events 2).schedule_canceled_out_events 4).out_events_ =
      (portWithOut true).out_events_.map (fun e =>
        { e with out_time_ :=
            if (portWithOut true).add_elapsed_time_ = true then e.out_time_ + (4 - 2)
            else max e.out_time_ 4 }) ∧
    List.Forall₂ (fun e e' : EventOut Int => e.out_time_ ≤ e'.out_time_ ∧ 4 ≤ e'.out_time_)
      (portWithOut true).out_events_
      (((portWithOut true).cancel_out_events 2).schedule_canceled_out_events 4).out_events_) ∧
    (((portWithOut true).cancel_out_events 2).schedule_canceled_out_events 4).out_events_.map
      (fun e => e.out_time_) = [7] :=
  ⟨by decide, by decide,
    C9_cancel_resume_time (portWithOut true) 2 4 (by decide) (by decide), by decide⟩

/-! ### Failures of type CYCLES -/

theorem Failure.step_interval (f : Failure) (ev : NodeEvent) :
    (f.step ev).1.interval = f.interval := by
  cases ev with
  | entered e => rfl
  | exited e =>
    simp only [Failure.step, Failure.entity_exited]
    split
    · split <;> rfl
    · rfl

theorem Failure.step_failed (f : Failure) (ev : NodeEvent) (h : (f.step ev).2.2 = true) :
    (f.step ev).1.cycle_count_ = f.interval ∧ (f.step ev).2.1 = true ∧ f.cycle_count_ ≤ 1 := by
  cases ev with
  | entered e => simp [Failure.step] at h
  | exited e =>
    simp only [Failure.step, Failure.entity_exited] at h ⊢
    by_cases hc : f.counts e = true
    · simp only [hc, if_true] at h ⊢
      by_cases h0 : f.cycle_count_ - 1 = 0
      · simp only [h0, if_true]
        exact ⟨trivial, trivial, by omega⟩
      · simp [h0] at h
    · simp [hc] at h

theorem Failure.step_not_failed (f : Failure) (ev : NodeEvent) (h : (f.step ev).2.2 = false) :
    (f.step ev).1.cycle_count_ + (if (f.step ev).2.1 = true then 1 else 0) = f.cycle_count_ ∨
    f.cycle_count_ = 0 := by
  cases ev with
  | entered e => left; simp [Failure.step, Failure.entity_enter]
  | exited e =>
    simp only [Failure.step, Failure.entity_exited] at h ⊢
    by_cases hc : f.counts e = true
    · simp only [hc, if_true] at h ⊢
      by_cases h0 : f.cycle_count_ - 1 = 0
      · simp [h0] at h
      · simp only [h0, if_false]
        left
        omega
    · left
      simp [hc]

theorem Failure.run_append (f : Failure) (pre seg : List NodeEvent) :
    f.run (pre ++ seg) = f.run pre ++ (f.after pre).run seg := by
  induction pre generalizing f with
  | nil => rfl
  | cons ev evs ih => simp [Failure.run, Failure.after, ih]

theorem Failure.run_length (f : Failure) (evs : List NodeEvent) :
    (f.run evs).length = evs.length := by
  induction evs generalizing f with
  | nil => rfl
  | cons ev evs ih => simp [Failure.run, ih]

/-- After a sequence of reports whose last one scheduled a failure the counter
equals the interval. -/
theorem Failure.after_failed (f : Failure) (pre : List NodeEvent)
    (h : ((f.run pre).getLast?).map (fun r => r.2) = some true) :
    (f.after pre).cycle_count_ = f.interval ∧ (f.after pre).interval = f.interval := by
  induction pre generalizing f with
  | nil => simp [Failure.run] at h
  | cons ev evs ih =>
    cases evs with
    | nil =>
      simp only [Failure.run, List.getLast?_singleton, Option.map_some', Option.some.injEq] at h
      exact ⟨(Failure.step_failed f ev h).1, Failure.step_interval f ev⟩
    | cons ev2 evs2 =>
      have h' : (((f.step ev).1.run (ev2 :: evs2)).getLast?).map (fun r => r.2) = some true := by
        rw [Failure.run] at h
        rw [Failure.run] at h ⊢
        rw [List.getLast?_cons_cons] at h
        exact h
      have := ih (f.step ev).1 h'
      rw [Failure.step_interval] at this
      exact this

/-- From a counter c ≥ 1, if a sequence of reports schedules a failure at its
last report and at no other, then it holds exactly c counted exits. -/
theorem Failure.count_to_failure (g : Failure) (seg : List NodeEvent)
    (hc : 1 ≤ g.cycle_count_)
    (h : (g.run seg).map (fun r => r.2) = List.replicate (seg.length - 1) false ++ [true]) :
    ((g.run seg).filter (fun r => r.1)).length = g.cycle_count_ := by
  induction seg generalizing g with
  | nil => simp [Failure.run] at h
  | cons ev evs ih =>
    cases evs with
    | nil =>
      simp only [Failure.run, List.map_cons, List.map_nil, List.length_singleton, Nat.sub_self,
        List.replicate_zero, List.nil_append, List.cons.injEq, and_true] at h
      obtain ⟨_, hcounted, hle⟩ := Failure.step_failed g ev h
      simp only [Failure.run, List.filter_cons, hcounted, if_true, List.filter_nil,
        List.length_singleton]
      omega
    | cons ev2 evs2 =>
      rw [Failure.run] at h ⊢
      simp only [List.length_cons, Nat.add_sub_cancel, List.map_cons] at h
      rw [List.replicate_succ, List.cons_append, List.cons.injEq] at h
      obtain ⟨hfirst, hrest⟩ := h
      have hstep := Failure.step_not_failed g ev hfirst
      have hrest' : ((g.step ev).1.run (ev2 :: evs2)).map (fun r => r.2) =
          List.replicate ((ev2 :: evs2).length - 1) false ++ [true] := by
        simpa using hrest
      by_cases hcounted : (g.step ev).2.1 = true
      · simp only [hcounted, if_true] at hstep
        have hc' : 1 ≤ (g.step ev).1.cycle_count_ := by
          cases ev with
          | entered e => simp [Failure.step] at hcounted
          | exited e =>
            simp only [Failure.step, Failure.entity_exited] at hfirst hcounted ⊢
            simp only [hcounted, if_true] at hfirst ⊢
            by_cases h0 : g.cycle_count_ - 1 = 0
            · simp [h0] at hfirst
            · simp only [h0, if_false]
              omega
        have := ih (g.step ev).1 hc' hrest'
        rw [List.filter_cons, if_pos hcounted, List.length_cons, this]
        omega
      · simp only [hcounted, Bool.false_eq_true, if_false, Nat.add_zero] at hstep
        have hc' : 1 ≤ (g.step ev).1.cycle_count_ := by omega
        have := ih (g.step ev).1 hc' hrest'
        rw [List.filter_cons, if_neg hcounted, this]
        omega

/-- C10: for a failure with interval I ≥ 1, whenever in a sequence of reports of
the owner a failure is scheduled at the last report of `pre` and the next
failure is scheduled at the last report of `seg`, the number of counted exits
in `seg` (all exits, or for a Disassembly owner the exits of the entity that is
the assembly identity of the entered entity) equals I. -/
theorem C10_cycles_between_failures (f : Failure) (pre seg : List NodeEvent)
    (hI : 1 ≤ f.interval)
    (hpre : ((f.run pre).getLast?).map (fun r => r.2) = some true)
    (hseg : ((f.run (pre ++ seg)).drop pre.length).map (fun r => r.2) =
      List.replicate (seg.length - 1) false ++ [true]) :
    (((f.run (pre ++ seg)).drop pre.length).filter (fun r => r.1)).length = f.interval := by
  have hdrop : (f.run (pre ++ seg)).drop pre.length = (f.after pre).run seg := by
    rw [Failure.run_append]
    have hlen : pre.length = (f.run pre).length := (Failure.run_length f pre).symm
    rw [hlen, List.drop_left]
  rw [hdrop] at hseg ⊢
  obtain ⟨hcount, _⟩ := Failure.after_failed f pre hpre
  have := Failure.count_to_failure (f.after pre) seg (by omega) hseg
  rw [this, hcount]

/-- A witness for C10: a disassembly with interval 2; of the four exits between
its two failures the two exits of assembly identities are counted. For an
operation with interval 2 the two exits after the first failure are counted. -/
theorem C10_cycles_between_failures_witness :
    (1 ≤ cyclesFailureDisassembly.interval ∧
     ((cyclesFailureDisassembly.run reportsPre).getLast?).map (fun r => r.2) = some true ∧
     ((cyclesFailureDisassembly.run (reportsPre ++ reportsSeg)).drop reportsPre.length).map
        (fun r => r.2) = List.replicate (reportsSeg.length - 1) false ++ [true]) ∧
    (((cyclesFailureDisassembly.run (reportsPre ++ reportsSeg)).drop reportsPre.length).filter
        (fun r => r.1)).length = cyclesFailureDisassembly.interval ∧
    (((cyclesFailure.run ([.exited ⟨1, 1⟩] ++ [.entered ⟨2, 2⟩, .exited ⟨2, 2⟩,
        .exited ⟨3, 3⟩])).drop [NodeEvent.exited ⟨1, 1⟩].length).filter
        (fun r => r.1)).length = cyclesFailure.interval :=
  ⟨by decide,
   C10_cycles_between_failures cyclesFailureDisassembly reportsPre reportsSeg
     (by decide) (by decide) (by decide),
   C10_cycles_between_failures cyclesFailure [.exited ⟨1, 1⟩]
     [.entered ⟨2, 2⟩, .exited ⟨2, 2⟩, .exited ⟨3, 3⟩] (by decide) (by decide) (by decide)⟩

/-! ### Resource allocation -/

theorem selectResources_perm {F : Type} [DecidableEq F] :
    ∀ (skills : List Nat) (candidates selected left : List (LogicResource F)),
      selectResources skills candidates = some (selected, left) →
      (selected ++ left).Perm candidates := by
  intro skills
  induction skills with
  | nil =>
    intro candidates selected left h
    simp only [selectResources, Option.some.injEq, Prod.mk.injEq] at h
    obtain ⟨rfl, rfl⟩ := h
    exact List.Perm.refl _
  | cons skill skills ih =>
    intro candidates selected left h
    unfold selectResources at h
    cases hfind : candidates.find? (fun r => decide (skill ∈ r.skills_)) with
    | none => simp [hfind] at h
    | some r =>
      simp only [hfind] at h
      cases hrec : selectResources skills (candidates.erase r) with
      | none => simp [hrec] at h
      | some res =>
        obtain ⟨sel, lf⟩ := res
        simp only [hrec, Option.some.injEq, Prod.mk.injEq] at h
        obtain ⟨rfl, rfl⟩ := h
        have hmem : r ∈ candidates := List.mem_of_find?_eq_some hfind
        have h1 := ih _ _ _ hrec
        exact (List.Perm.cons r h1).trans (List.perm_cons_erase hmem).symm

/-- What `allocate_resources` does when it succeeds: the resources selected and
those left are the pool, and the selected ones are appended to the allocated
ones with the NodeResource as holder. -/
theorem allocate_resources_true {F : Type} [LinearOrder F] (rm : ResourceManager F)
    (nr : NodeResource) (h : (rm.allocate_resources nr).1 = true) :
    ∃ selected : List (LogicResource F),
      (selected ++ (rm.allocate_resources nr).2.logic_resources_).Perm rm.logic_resources_ ∧
      (rm.allocate_resources nr).2.allocated_ =
        rm.allocated_ ++ selected.map (fun r => r.set_node_resource (some nr.id)) := by
  unfold ResourceManager.allocate_resources at h ⊢
  simp only at h ⊢
  cases hsel : selectResources nr.skills_ (List.insertionSort
      (fun a b => resourceBefore nr.sorting_ a b = true) rm.logic_resources_) with
  | none => simp [hsel] at h
  | some res =>
    obtain ⟨selected, left⟩ := res
    simp only
    exact ⟨selected,
      (selectResources_perm _ _ _ _ hsel).trans (List.perm_insertionSort _ _), rfl⟩

theorem allocate_resources_false {F : Type} [LinearOrder F] (rm : ResourceManager F)
    (nr : NodeResource) (h : (rm.allocate_resources nr).1 = false) :
    (rm.allocate_resources nr).2 = rm := by
  unfold ResourceManager.allocate_resources at h ⊢
  simp only at h ⊢
  cases hsel : selectResources nr.skills_ (List.insertionSort
      (fun a b => resourceBefore nr.sorting_ a b = true) rm.logic_resources_) with
  | none => rfl
  | some res => simp [hsel] at h

theorem allocate_resources_inv {F : Type} [LinearOrder F] (rm : ResourceManager F)
    (nr : NodeResource) (ids : List Nat) (hinv : rm.PoolInv ids) :
    (rm.allocate_resources nr).2.PoolInv ids := by
  cases hres : (rm.allocate_resources nr).1 with
  | false =>
    rw [allocate_resources_false rm nr hres]
    exact hinv
  | true =>
    obtain ⟨selected, hperm, halloc⟩ := allocate_resources_true rm nr hres
    obtain ⟨hids, hfree, hheld⟩ := hinv
    refine ⟨?_, ?_, ?_⟩
    · rw [halloc]
      refine List.Perm.trans ?_ hids
      have hp := List.Perm.map (fun r : LogicResource F => r.id) hperm
      rw [List.perm_iff_count] at hp ⊢
      intro a
      have := hp a
      simp only [List.map_append, List.count_append, List.map_map] at this ⊢
      have hcomp : ((fun r : LogicResource F => r.id) ∘
          fun r : LogicResource F => r.set_node_resource (some nr.id)) =
          fun r : LogicResource F => r.id := rfl
      rw [hcomp]
      omega
    · intro r hr
      exact hfree r ((hperm.subset) (List.mem_append_right _ hr))
    · intro r hr
      rw [halloc] at hr
      rcases List.mem_append.mp hr with hr | hr
      · exact hheld r hr
      · obtain ⟨r0, _, rfl⟩ := List.mem_map.mp hr
        exact ⟨nr.id, rfl⟩

theorem trigger_blocklist_inv {F : Type} [LinearOrder F] (rm : ResourceManager F)
    (ids : List Nat) (hinv : rm.PoolInv ids) : rm.trigger_blocklist.PoolInv ids := by
  unfold ResourceManager.trigger_blocklist
  generalize List.insertionSort
    (fun a b : BlockListItem => a.resource.priority_ ≤ b.resource.priority_)
    rm.block_list_ = items
  induction items generalizing rm with
  | nil => exact hinv
  | cons item items ih =>
    rw [List.foldl_cons]
    apply ih
    have h1 := allocate_resources_inv rm item.resource ids hinv
    cases hres : (rm.allocate_resources item.resource) with
    | mk ok st1 =>
      rw [hres] at h1
      cases ok with
      | true => exact h1
      | false => exact hinv

theorem release_resources_inv {F : Type} [LinearOrder F] (rm : ResourceManager F)
    (n : Nat) (ids : List Nat) (hinv : rm.PoolInv ids) : (rm.release_resources n).PoolInv ids := by
  unfold ResourceManager.release_resources
  apply trigger_blocklist_inv
  obtain ⟨hids, hfree, hheld⟩ := hinv
  refine ⟨?_, ?_, ?_⟩
  · refine List.Perm.trans ?_ hids
    have hp := List.Perm.map (fun r : LogicResource F => r.id)
      (List.filter_append_perm (fun r => decide (r.node_resource_ = some n)) rm.allocated_)
    rw [List.perm_iff_count] at hp ⊢
    intro a
    have := hp a
    simp only [List.map_append, List.count_append, List.map_map] at this ⊢
    have hcomp : ((fun r : LogicResource F => r.id) ∘
        fun r : LogicResource F => r.set_node_resource none) =
        fun r : LogicResource F => r.id := rfl
    rw [hcomp]
    omega
  · intro r hr
    rcases List.mem_append.mp hr with hr | hr
    · exact hfree r hr
    · obtain ⟨r0, _, rfl⟩ := List.mem_map.mp hr
      rfl
  · intro r hr
    exact hheld r (List.mem_filter.mp hr).1

theorem exec_inv {F : Type} [LinearOrder F] (rm : ResourceManager F) (c : ResourceCall)
    (ids : List Nat) (hinv : rm.PoolInv ids) : (rm.exec c).PoolInv ids := by
  cases c with
  | request item =>
    have h1 := allocate_resources_inv rm item.resource ids hinv
    simp only [ResourceManager.exec, ResourceManager.request]
    cases hres : (rm.allocate_resources item.resource) with
    | mk ok st1 =>
      rw [hres] at h1
      cases ok with
      | true => exact h1
      | false => exact h1
  | release n => exact release_resources_inv rm n ids hinv

theorem create_inv {F : Type} (resources : List (LogicResource F)) :
    (ResourceManager.create resources).PoolInv (resources.map (fun r => r.id)) := by
  have hgen : ∀ (rs : List (LogicResource F)) (rm : ResourceManager F) (ids : List Nat),
      rm.PoolInv ids →
      (rs.foldl ResourceManager.add_logic_resource rm).PoolInv
        (ids ++ rs.map (fun r => r.id)) := by
    intro rs
    induction rs with
    | nil => intro rm ids h; simpa using h
    | cons r rs ih =>
      intro rm ids h
      rw [List.foldl_cons]
      have hstep : (rm.add_logic_resource r).PoolInv (ids ++ [r.id]) := by
        obtain ⟨hids, hfree, hheld⟩ := h
        refine ⟨?_, ?_, hheld⟩
        · rw [List.perm_iff_count] at hids ⊢
          intro a
          have := hids a
          simp only [ResourceManager.add_logic_resource, LogicResource.set_node_resource,
            List.map_append, List.count_append, List.map_cons, List.map_nil] at this ⊢
          omega
        · intro x hx
          simp only [ResourceManager.add_logic_resource, List.mem_append,
            List.mem_singleton] at hx
          rcases hx with hx | rfl
          · exact hfree x hx
          · rfl
      have := ih (rm.add_logic_resource r) (ids ++ [r.id]) hstep
      simpa using this
  have := hgen resources ⟨[], [], [], []⟩ [] ⟨by simp, by simp, by simp⟩
  simpa [ResourceManager.create] using this

theorem reachable_inv {F : Type} [LinearOrder F] (resources : List (LogicResource F))
    (calls : List ResourceCall) :
    (calls.foldl ResourceManager.exec (ResourceManager.create resources)).PoolInv
      (resources.map (fun r => r.id)) := by
  have hgen : ∀ (cs : List ResourceCall) (rm : ResourceManager F),
      rm.PoolInv (resources.map (fun r => r.id)) →
      (cs.foldl ResourceManager.exec rm).PoolInv (resources.map (fun r => r.id)) := by
    intro cs
    induction cs with
    | nil => intro rm h; exact h
    | cons c cs ih =>
      intro rm h
      rw [List.foldl_cons]
      exact ih _ (exec_inv rm c _ h)
  exact hgen calls _ (create_inv resources)

/-- C8: in every state of the resource subsystem reached by requests and
releases, each LogicResource of the manager is exactly once among the free
resources of the pool and the allocated ones; a free resource has no holder and
an allocated one has exactly one NodeResource as holder, so no LogicResource is
held by two NodeResources; and `allocate_resources` hands out only resources
that are free, never one that is already allocated. -/
theorem C8_resource_allocation_injective {F : Type} [LinearOrder F]
    (resources : List (LogicResource F)) (calls : List ResourceCall)
    (hnodup : (resources.map (fun r => r.id)).Nodup) :
    (∀ r ∈ resources,
      (((ResourceManager.reached resources calls).logic_resources_ ++
        (ResourceManager.reached resources calls).allocated_).map (fun x => x.id)).count r.id
        = 1) ∧
    (∀ r ∈ (ResourceManager.reached resources calls).logic_resources_,
      r.node_resource_ = none) ∧
    (∀ r ∈ (ResourceManager.reached resources calls).allocated_,
      ∃ n, r.node_resource_ = some n) ∧
    (∀ r1 ∈ (ResourceManager.reached resources calls).allocated_,
      ∀ r2 ∈ (ResourceManager.reached resources calls).allocated_,
      r1.id = r2.id → r1.node_resource_ = r2.node_resource_) ∧
    (∀ r1 ∈ (ResourceManager.reached resources calls).logic_resources_,
      ∀ r2 ∈ (ResourceManager.reached resources calls).allocated_, r1.id ≠ r2.id) ∧
    (∀ nr : NodeResource,
      ((ResourceManager.reached resources calls).allocate_resources nr).1 = true →
      ∃ selected : List (LogicResource F),
        ((ResourceManager.reached resources calls).allocate_resources nr).2.allocated_ =
          (ResourceManager.reached resources calls).allocated_ ++
            selected.map (fun r => r.set_node_resource (some nr.id)) ∧
        ∀ r ∈ selected, r ∈ (ResourceManager.reached resources calls).logic_resources_ ∧
          r.id ∉ (ResourceManager.reached resources calls).allocated_.map (fun x => x.id)) := by
  obtain ⟨hperm, hfree, hheld⟩ := reachable_inv resources calls
  have hnd : (((ResourceManager.reached resources calls).logic_resources_ ++
      (ResourceManager.reached resources calls).allocated_).map (fun x => x.id)).Nodup :=
    (List.Perm.nodup_iff hperm).mpr hnodup
  have hnd' := hnd
  rw [List.map_append, List.nodup_append] at hnd'
  obtain ⟨_, hndalloc, hdisj⟩ := hnd'
  have hdis : ∀ r1 ∈ (ResourceManager.reached resources calls).logic_resources_,
      ∀ r2 ∈ (ResourceManager.reached resources calls).allocated_, r1.id ≠ r2.id := by
    intro r1 h1 r2 h2 heq
    apply hdisj (List.mem_map_of_mem (fun x => x.id) h1)
    rw [heq]
    exact List.mem_map_of_mem (fun x => x.id) h2
  refine ⟨?_, hfree, hheld, ?_, hdis, ?_⟩
  · intro r hr
    apply List.count_eq_one_of_mem hnd
    exact hperm.symm.subset (List.mem_map_of_mem (fun x => x.id) hr)
  · intro r1 h1 r2 h2 heq
    rw [List.inj_on_of_nodup_map hndalloc h1 h2 heq]
  · intro nr hok
    obtain ⟨selected, hsel, halloc⟩ :=
      allocate_resources_true (ResourceManager.reached resources calls) nr hok
    refine ⟨selected, halloc, ?_⟩
    intro r hr
    have hmem : r ∈ (ResourceManager.reached resources calls).logic_resources_ :=
      hsel.subset (List.mem_append_left _ hr)
    refine ⟨hmem, ?_⟩
    intro hin
    obtain ⟨r2, h2, heq⟩ := List.mem_map.mp hin
    exact hdis r hmem r2 h2 heq.symm

/-- A witness for C8: a shop with three resources; after three requests for a
welder and the release of the first, resource 2 is held by NodeResource 11,
resource 1 by NodeResource 12 and resource 3 is free. -/
theorem C8_resource_allocation_injective_witness :
    (shopResources.map (fun r => r.id)).Nodup ∧
    ((ResourceManager.reached shopResources shopCalls).allocated_.map
        (fun r => (r.id, r.node_resource_)) = [(2, some 11), (1, some 12)] ∧
     (ResourceManager.reached shopResources shopCalls).logic_resources_.map
        (fun r => (r.id, r.node_resource_)) = [(3, none)]) ∧
    (∀ r1 ∈ (ResourceManager.reached shopResources shopCalls).allocated_,
      ∀ r2 ∈ (ResourceManager.reached shopResources shopCalls).allocated_,
      r1.id = r2.id → r1.node_resource_ = r2.node_resource_) :=
  ⟨by decide, by decide,
   (C8_resource_allocation_injective shopResources shopCalls (by decide)).2.2.2.1⟩

/-! ### The property container -/

theorem lookup_map_replace {V : Type} (m : List (PropertyKey × V)) (k k' : PropertyKey) (v : V) :
    (m.map (fun kv => if kv.1 = k then (k, v) else kv)).lookup k' =
      if k' = k then (m.lookup k).map (fun _ => v) else m.lookup k' := by
  induction m with
  | nil => simp
  | cons kv m ih =>
    obtain ⟨a, b⟩ := kv
    rw [List.map_cons]
    by_cases hak : a = k
    · subst hak
      rw [if_pos rfl, List.lookup_cons, List.lookup_cons, ih]
      by_cases hk : k' = a
      · subst hk
        simp
      · have hk2 : (k' == a) = false := by simpa using hk
        simp [hk2, hk, List.lookup_cons]
    · rw [if_neg hak, List.lookup_cons, List.lookup_cons, ih]
      by_cases hk : k' = k
      · subst hk
        have h1 : (k' == a) = false := by
          simp only [beq_eq_false_iff_ne, ne_eq]
          exact fun h => hak h.symm
        have h2 : (a == k') = false := by simpa using hak
        simp [h1]
      · have h2 : (k == a) = false := by
          simp only [beq_eq_false_iff_ne, ne_eq]
          exact fun h => hak h.symm
        simp [hk, h2, List.lookup_cons]

theorem lookup_append_single {V : Type} (m : List (PropertyKey × V)) (k k' : PropertyKey) (v : V)
    (h : m.lookup k = none) :
    (m ++ [(k, v)]).lookup k' = if k' = k then some v else m.lookup k' := by
  induction m with
  | nil =>
    by_cases hk : k' = k
    · subst hk
      simp [List.lookup]
    · have hk2 : (k' == k) = false := by simpa using hk
      simp [List.lookup, hk2, hk]
  | cons kv m ih =>
    obtain ⟨a, b⟩ := kv
    rw [List.lookup_cons] at h
    by_cases hka : k = a
    · subst hka
      simp at h
    · have hka2 : (k == a) = false := by simpa using hka
      simp only [hka2] at h
      have ih' := ih h
      rw [List.cons_append, List.lookup_cons, List.lookup_cons, ih']
      by_cases hk : k' = k
      · subst hk
        simp [hka2]
      · simp [hk]

/-- After `m[key] = value` the key is mapped to the value. -/
theorem mapFind_mapAssign_self {V : Type} (m : List (PropertyKey × V)) (k : PropertyKey) (v : V) :
    mapFind (mapAssign m k v) k = some v := by
  unfold mapFind mapAssign
  cases h : m.lookup k with
  | none =>
    simp only [Option.isSome_none, Bool.false_eq_true, if_false]
    rw [lookup_append_single m k k v h, if_pos rfl]
  | some w =>
    simp only [Option.isSome_some, if_true]
    rw [lookup_map_replace, if_pos rfl, h]
    rfl

/-- After `m[key] = value` every other key is mapped as before. -/
theorem mapFind_mapAssign_ne {V : Type} (m : List (PropertyKey × V)) (k k' : PropertyKey) (v : V)
    (hne : k' ≠ k) : mapFind (mapAssign m k v) k' = mapFind m k' := by
  unfold mapFind mapAssign
  cases h : m.lookup k with
  | none =>
    simp only [Option.isSome_none, Bool.false_eq_true, if_false]
    rw [lookup_append_single m k k' v h, if_neg hne]
  | some w =>
    simp only [Option.isSome_some, if_true]
    rw [lookup_map_replace, if_neg hne]

theorem any_cast_same {U : Type} [DecidableEq U] {Val : U → Type} (u : U) (v : Val u) :
    any_cast u (⟨u, v⟩ : (u : U) × Val u) = .ok v := by
  simp [any_cast]

theorem any_cast_of_type {U : Type} [DecidableEq U] {Val : U → Type} (u : U)
    (a : (u : U) × Val u) (h : a.1 = u) : ∃ v : Val u, a = ⟨u, v⟩ ∧ any_cast u a = .ok v := by
  obtain ⟨t, w⟩ := a
  simp only at h
  subst h
  exact ⟨w, rfl, any_cast_same _ w⟩

theorem any_cast_other_type {U : Type} [DecidableEq U] {Val : U → Type} (u : U)
    (a : (u : U) × Val u) (h : a.1 ≠ u) : any_cast u a = .error .bad_any_cast := by
  simp [any_cast, h]

/-- When the key is present, `m[key] = value` keeps the keys of the map. -/
theorem mapAssign_keys {V : Type} (m : List (PropertyKey × V)) (k : PropertyKey) (v : V)
    (h : (mapFind m k).isSome = true) : (mapAssign m k v).map Prod.fst = m.map Prod.fst := by
  unfold mapFind at h
  unfold mapAssign
  rw [if_pos h, List.map_map]
  apply List.map_congr_left
  intro kv _
  simp only [Function.comp]
  split
  · rename_i hk
    exact hk.symm
  · rfl

/-- C15: `get<V>(k)` throws std::runtime_error with the message "Property does
not exist: " followed by the text of the key (the string itself for a string
key, the decimal form for an int key) exactly when k is absent from the store
for V, for V = double, V = int and a generic V whose stored value has type V;
otherwise it returns the stored value; the container is left unchanged. -/
theorem C15_get_throws_when_absent {D U : Type} [DecidableEq U] {Val : U → Type}
    (render : Nat → String) (c : PropertyContainer D U Val) (k : PropertyKey) (u : U)
    (htype : ∀ a, mapFind c.properties_ k = some a → a.1 = u) :
    (((c.get_double render k).1 = .error (.runtime_error
        ("Property does not exist: " ++ k.text render)) ↔ mapFind c.double_properties_ k = none) ∧
      (∀ v, mapFind c.double_properties_ k = some v → (c.get_double render k).1 = .ok v) ∧
      (c.get_double render k).2 = c) ∧
    (((c.get_int render k).1 = .error (.runtime_error
        ("Property does not exist: " ++ k.text render)) ↔ mapFind c.int_properties_ k = none) ∧
      (∀ v, mapFind c.int_properties_ k = some v → (c.get_int render k).1 = .ok v) ∧
      (c.get_int render k).2 = c) ∧
    (((c.get render u k).1 = .error (.runtime_error
        ("Property does not exist: " ++ k.text render)) ↔ mapFind c.properties_ k = none) ∧
      (∀ a, mapFind c.properties_ k = some a →
        ∃ v : Val u, a = ⟨u, v⟩ ∧ (c.get render u k).1 = .ok v) ∧
      (c.get render u k).2 = c) ∧
    (∀ s : String, (PropertyKey.string s).text render = s) ∧
    (∀ i : Int, (PropertyKey.int i).text render = toString i) := by
  refine ⟨⟨?_, ?_, ?_⟩, ⟨?_, ?_, ?_⟩, ⟨?_, ?_, ?_⟩, fun _ => rfl, fun _ => rfl⟩
  · unfold PropertyContainer.get_double
    cases h : mapFind c.double_properties_ k <;> simp [doesNotExist]
  · intro v hv
    simp [PropertyContainer.get_double, hv]
  · unfold PropertyContainer.get_double
    cases h : mapFind c.double_properties_ k <;> rfl
  · unfold PropertyContainer.get_int
    cases h : mapFind c.int_properties_ k <;> simp [doesNotExist]
  · intro v hv
    simp [PropertyContainer.get_int, hv]
  · unfold PropertyContainer.get_int
    cases h : mapFind c.int_properties_ k <;> rfl
  · unfold PropertyContainer.get
    cases h : mapFind c.properties_ k with
    | none => simp [doesNotExist]
    | some a =>
      obtain ⟨v, _, hv⟩ := any_cast_of_type u a (htype a h)
      simp [hv]
  · intro a ha
    obtain ⟨v, hav, hv⟩ := any_cast_of_type u a (htype a ha)
    exact ⟨v, hav, by simp [PropertyContainer.get, ha, hv]⟩
  · unfold PropertyContainer.get
    cases h : mapFind c.properties_ k <;> rfl

/-- A witness for C15: in the sample container the bool under the key "flag"
is returned, and the keys "none" and 12 are absent. -/
theorem C15_get_throws_when_absent_witness :
    (∀ a, mapFind sampleProperties.properties_ (.string "flag") = some a → a.1 = TypeCode.bool) ∧
    (sampleProperties.get (fun _ => "0x0") .bool (.string "flag")).1 = .ok true ∧
    (sampleProperties.get_double (fun _ => "0x0") (.int 7)).1 = .ok 3 ∧
    (sampleProperties.get_int (fun _ => "0x0") (.string "none")).1 =
      .error (.runtime_error "Property does not exist: none") ∧
    (sampleProperties.get_double (fun _ => "0x0") (.int 12)).1 =
      .error (.runtime_error "Property does not exist: 12") ∧
    (sampleProperties.get_int (fun _ => "0x0") (.int (-5))).1 =
      .error (.runtime_error "Property does not exist: -5") :=
  have h : ∀ a, mapFind sampleProperties.properties_ (.string "flag") = some a →
      a.1 = TypeCode.bool := by
    intro a ha
    have h1 : mapFind sampleProperties.properties_ (.string "flag") =
        some ⟨TypeCode.bool, true⟩ := rfl
    rw [h1] at ha
    cases ha
    rfl
  ⟨h,
   by
    obtain ⟨v, hv, hget⟩ := (C15_get_throws_when_absent (fun _ => "0x0") sampleProperties
      (.string "flag") TypeCode.bool h).2.2.1.2.1 ⟨TypeCode.bool, true⟩ rfl
    cases hv
    exact hget,
   rfl, rfl, rfl, rfl⟩

/-- C16: `try_get<V>(k, out)` returns true exactly when `get<V>(k)` does not
throw, and then `out` equals the value `get<V>(k)` returns; when it returns
false `out` keeps its previous value; the container is unchanged. For
V = double, V = int and a generic V whose stored value has type V. -/
theorem C16_try_get_agrees_with_get {D U : Type} [DecidableEq U] {Val : U → Type}
    (render : Nat → String) (c : PropertyContainer D U Val) (k : PropertyKey) (u : U)
    (htype : ∀ a, mapFind c.properties_ k = some a → a.1 = u) :
    (∀ out : D,
      ((c.try_get_double k out).1.1 = true ↔ ∃ v, (c.get_double render k).1 = .ok v) ∧
      ((c.try_get_double k out).1.1 = true →
        (c.get_double render k).1 = .ok (c.try_get_double k out).1.2) ∧
      ((c.try_get_double k out).1.1 = false → (c.try_get_double k out).1.2 = out) ∧
      (c.try_get_double k out).2 = c) ∧
    (∀ out : Int,
      ((c.try_get_int k out).1.1 = true ↔ ∃ v, (c.get_int render k).1 = .ok v) ∧
      ((c.try_get_int k out).1.1 = true →
        (c.get_int render k).1 = .ok (c.try_get_int k out).1.2) ∧
      ((c.try_get_int k out).1.1 = false → (c.try_get_int k out).1.2 = out) ∧
      (c.try_get_int k out).2 = c) ∧
    (∀ out : Val u, ∃ (flag : Bool) (value : Val u),
      (c.try_get u k out).1 = .ok (flag, value) ∧
      (flag = true ↔ ∃ v, (c.get render u k).1 = .ok v) ∧
      (flag = true → (c.get render u k).1 = .ok value) ∧
      (flag = false → value = out) ∧
      (c.try_get u k out).2 = c) := by
  refine ⟨?_, ?_, ?_⟩
  · intro out
    unfold PropertyContainer.try_get_double PropertyContainer.get_double
    cases h : mapFind c.double_properties_ k <;> simp
  · intro out
    unfold PropertyContainer.try_get_int PropertyContainer.get_int
    cases h : mapFind c.int_properties_ k <;> simp
  · intro out
    unfold PropertyContainer.try_get PropertyContainer.get
    cases h : mapFind c.properties_ k with
    | none => exact ⟨false, out, by simp⟩
    | some a =>
      obtain ⟨v, _, hv⟩ := any_cast_of_type u a (htype a h)
      exact ⟨true, v, by simp [hv]⟩

/-- A witness for C16: in the sample container `try_get<bool>("flag", false)`
returns true with the value true, and `try_get<bool>("none", false)` returns
false and leaves the value. -/
theorem C16_try_get_agrees_with_get_witness :
    (∀ a, mapFind sampleProperties.properties_ (.string "flag") = some a → a.1 = TypeCode.bool) ∧
    (sampleProperties.try_get .bool (.string "flag") false).1 = .ok (true, true) ∧
    (sampleProperties.try_get .bool (.string "none") false).1 = .ok (false, false) ∧
    (sampleProperties.try_get_double (.int 7) 0).1 = (true, 3) ∧
    (∃ (flag : Bool) (value : Bool),
      (sampleProperties.try_get .bool (.string "flag") false).1 = .ok (flag, value) ∧
      (flag = true ↔ ∃ v,
        (sampleProperties.get (fun _ => "0x0") .bool (.string "flag")).1 = .ok v) ∧
      (flag = true →
        (sampleProperties.get (fun _ => "0x0") .bool (.string "flag")).1 = .ok value) ∧
      (flag = false → value = false) ∧
      (sampleProperties.try_get .bool (.string "flag") false).2 = sampleProperties) :=
  have h : ∀ a, mapFind sampleProperties.properties_ (.string "flag") = some a →
      a.1 = TypeCode.bool := by
    intro a ha
    have h1 : mapFind sampleProperties.properties_ (.string "flag") =
        some ⟨TypeCode.bool, true⟩ := rfl
    rw [h1] at ha
    cases ha
    rfl
  ⟨h, rfl, rfl, rfl,
   (C16_try_get_agrees_with_get (fun _ => "0x0") sampleProperties (.string "flag")
     TypeCode.bool h).2.2 false⟩

/-- C17 (as stated, refuted): in the sample container the key "flag" is
present in the store for a generic V with a bool as value; `try_update` at the
type string does not return true: `std::any_cast` throws std::bad_any_cast. -/
theorem C17_try_update_other_type_throws :
    sampleProperties.has (.string "flag") = true ∧
    (sampleProperties.try_update .string (.string "flag") (fun (s : String) => s ++ "x")).1 =
      .error .bad_any_cast ∧
    (sampleProperties.try_update .string (.string "flag") (fun (s : String) => s ++ "x")).1 ≠ .ok true := by
  refine ⟨rfl, rfl, ?_⟩
  intro h
  have h2 : (sampleProperties.try_update .string (.string "flag") (fun (s : String) => s ++ "x")).1 =
      .error .bad_any_cast := rfl
  rw [h2] at h
  cases h

/-- C17 (amended): for V = double and V = int, `try_update<V>(k, f)` returns
true iff k is present in the store for V; when it returns true the value stored
under k becomes f(old value), every other entry and the keys of the store are
unchanged, and so are the other stores; when it returns false the container is
unchanged, whatever f is. For a generic V the same holds when the stored value
has type V; when the stored value has another type, std::bad_any_cast is thrown
and the container is unchanged. -/
theorem C17_try_update {D U : Type} [DecidableEq U] {Val : U → Type}
    (c : PropertyContainer D U Val) (k : PropertyKey) :
    (∀ f : D → D,
      (c.try_update_double k f).1 = c.has_double k ∧
      (mapFind c.double_properties_ k = none → c.try_update_double k f = (false, c)) ∧
      (∀ v, mapFind c.double_properties_ k = some v →
        (c.try_update_double k f).1 = true ∧
        mapFind (c.try_update_double k f).2.double_properties_ k = some (f v) ∧
        (∀ k', k' ≠ k → mapFind (c.try_update_double k f).2.double_properties_ k' =
          mapFind c.double_properties_ k') ∧
        (c.try_update_double k f).2.double_properties_.map Prod.fst =
          c.double_properties_.map Prod.fst ∧
        (c.try_update_double k f).2.int_properties_ = c.int_properties_ ∧
        (c.try_update_double k f).2.properties_ = c.properties_)) ∧
    (∀ f : Int → Int,
      (c.try_update_int k f).1 = c.has_int k ∧
      (mapFind c.int_properties_ k = none → c.try_update_int k f = (false, c)) ∧
      (∀ v, mapFind c.int_properties_ k = some v →
        (c.try_update_int k f).1 = true ∧
        mapFind (c.try_update_int k f).2.int_properties_ k = some (f v) ∧
        (∀ k', k' ≠ k → mapFind (c.try_update_int k f).2.int_properties_ k' =
          mapFind c.int_properties_ k') ∧
        (c.try_update_int k f).2.int_properties_.map Prod.fst =
          c.int_properties_.map Prod.fst ∧
        (c.try_update_int k f).2.double_properties_ = c.double_properties_ ∧
        (c.try_update_int k f).2.properties_ = c.properties_)) ∧
    (∀ (u : U) (f : Val u → Val u),
      (mapFind c.properties_ k = none → c.try_update u k f = (.ok false, c)) ∧
      (∀ v : Val u, mapFind c.properties_ k = some ⟨u, v⟩ →
        (c.try_update u k f).1 = .ok true ∧
        mapFind (c.try_update u k f).2.properties_ k = some ⟨u, f v⟩ ∧
        (∀ k', k' ≠ k → mapFind (c.try_update u k f).2.properties_ k' =
          mapFind c.properties_ k') ∧
        (c.try_update u k f).2.properties_.map Prod.fst = c.properties_.map Prod.fst ∧
        (c.try_update u k f).2.double_properties_ = c.double_properties_ ∧
        (c.try_update u k f).2.int_properties_ = c.int_properties_) ∧
      (∀ a, mapFind c.properties_ k = some a → a.1 ≠ u →
        c.try_update u k f = (.error .bad_any_cast, c))) := by
  refine ⟨?_, ?_, ?_⟩
  · intro f
    refine ⟨?_, ?_, ?_⟩
    · unfold PropertyContainer.try_update_double PropertyContainer.has_double
      cases h : mapFind c.double_properties_ k <;> rfl
    · intro h
      simp [PropertyContainer.try_update_double, h]
    · intro v hv
      have hsome : (mapFind c.double_properties_ k).isSome = true := by simp [hv]
      have e : c.try_update_double k f =
          (true, { c with double_properties_ := mapAssign c.double_properties_ k (f v) }) := by
        simp [PropertyContainer.try_update_double, hv]
      rw [e]
      exact ⟨rfl, mapFind_mapAssign_self _ _ _,
        fun k' hk' => mapFind_mapAssign_ne _ _ _ _ hk', mapAssign_keys _ _ _ hsome, rfl, rfl⟩
  · intro f
    refine ⟨?_, ?_, ?_⟩
    · unfold PropertyContainer.try_update_int PropertyContainer.has_int
      cases h : mapFind c.int_properties_ k <;> rfl
    · intro h
      simp [PropertyContainer.try_update_int, h]
    · intro v hv
      have hsome : (mapFind c.int_properties_ k).isSome = true := by simp [hv]
      have e : c.try_update_int k f =
          (true, { c with int_properties_ := mapAssign c.int_properties_ k (f v) }) := by
        simp [PropertyContainer.try_update_int, hv]
      rw [e]
      exact ⟨rfl, mapFind_mapAssign_self _ _ _,
        fun k' hk' => mapFind_mapAssign_ne _ _ _ _ hk', mapAssign_keys _ _ _ hsome, rfl, rfl⟩
  · intro u f
    refine ⟨?_, ?_, ?_⟩
    · intro h
      simp [PropertyContainer.try_update, h]
    · intro v hv
      have hsome : (mapFind c.properties_ k).isSome = true := by simp [hv]
      have e : c.try_update u k f =
          (.ok true, { c with properties_ := mapAssign c.properties_ k ⟨u, f v⟩ }) := by
        simp [PropertyContainer.try_update, hv, any_cast_same]
      rw [e]
      exact ⟨rfl, mapFind_mapAssign_self _ _ _,
        fun k' hk' => mapFind_mapAssign_ne _ _ _ _ hk', mapAssign_keys _ _ _ hsome, rfl, rfl⟩
    · intro a ha hne
      simp [PropertyContainer.try_update, ha, any_cast_other_type u a hne]

/-! ### The object hierarchy -/

theorem Object.find_object_by_id_eq (T : Nat → Bool) (id : String) (recursive : Bool)
    (o : Object) :
    o.find_object_by_id T id recursive = find_object_by_id_loop T id recursive o.children_ := by
  cases o
  rw [Object.find_object_by_id]
  rfl

theorem Object.descendants_eq (o : Object) : o.descendants = descendantsOfList o.children_ := by
  cases o
  rw [Object.descendants]
  rfl

mutual
/-- What the recursive search for an id returns from an object: an object of
that id among the proper descendants, and nullptr only when no proper
descendant has the id. -/
theorem Object.find_all_spec (s : String) : ∀ o : Object,
    (∀ r, o.find_object_by_id anyObject s true = some r → r.id = s ∧ r ∈ o.descendants) ∧
    (o.find_object_by_id anyObject s true = none → ∀ d ∈ o.descendants, d.id ≠ s)
  | .mk a i c children => by
    have h := find_loop_all_spec s children
    rw [Object.find_object_by_id, Object.descendants]
    exact h
/-- What the loop of the recursive search for an id returns from a list of
children. -/
theorem find_loop_all_spec (s : String) : ∀ cs : List Object,
    (∀ r, find_object_by_id_loop anyObject s true cs = some r →
      r.id = s ∧ r ∈ descendantsOfList cs) ∧
    (find_object_by_id_loop anyObject s true cs = none → ∀ d ∈ descendantsOfList cs, d.id ≠ s)
  | [] => by
    constructor
    · intro r h
      simp [find_object_by_id_loop] at h
    · intro _ d hd
      simp [descendantsOfList] at hd
  | object :: rest => by
    have h1 := Object.find_all_spec s object
    have h2 := find_loop_all_spec s rest
    rw [find_object_by_id_loop, descendantsOfList]
    by_cases hid : object.id = s
    · rw [if_pos hid]
      simp only [anyObject, if_true]
      constructor
      · intro r hr
        cases hr
        exact ⟨hid, List.mem_cons_self _ _⟩
      · intro hr
        cases hr
    · rw [if_neg hid]
      simp only [if_true]
      cases hfind : Object.find_object_by_id anyObject s true object with
      | some t =>
        simp only
        constructor
        · intro r hr
          cases hr
          obtain ⟨ht1, ht2⟩ := h1.1 t hfind
          exact ⟨ht1, List.mem_cons_of_mem _ (List.mem_append_left _ ht2)⟩
        · intro hr
          cases hr
      | none =>
        simp only
        constructor
        · intro r hr
          obtain ⟨hr1, hr2⟩ := h2.1 r hr
          exact ⟨hr1, List.mem_cons_of_mem _ (List.mem_append_right _ hr2)⟩
        · intro hr d hd
          rcases List.mem_cons.mp hd with rfl | hd
          · exact hid
          · rcases List.mem_append.mp hd with hd | hd
            · exact h1.2 hfind d hd
            · exact h2.2 hr d hd
end

/-- C18: for every object o (its child hierarchy acyclic) and every id s,
`o.find_object_by_id<Object>(s, true)` returns an object whose id() equals s,
one of the proper descendants of o, if some proper descendant of o has id s,
and returns nullptr if no proper descendant has id s. -/
theorem C18_find_object_by_id (o : Object) (s : String) :
    ((∃ d ∈ o.descendants, d.id = s) →
      ∃ r, o.find_object_by_id anyObject s true = some r ∧ r.id = s ∧ r ∈ o.descendants) ∧
    ((¬ ∃ d ∈ o.descendants, d.id = s) → o.find_object_by_id anyObject s true = none) := by
  have h := Object.find_all_spec s o
  constructor
  · rintro ⟨d, hd, hds⟩
    cases hfind : o.find_object_by_id anyObject s true with
    | none => exact absurd hds (h.2 hfind d hd)
    | some r => exact ⟨r, rfl, h.1 r hfind⟩
  · intro hno
    cases hfind : o.find_object_by_id anyObject s true with
    | none => rfl
    | some r =>
      obtain ⟨hr1, hr2⟩ := h.1 r hfind
      exact absurd ⟨r, hr2, hr1⟩ hno

theorem polymorphic_objects_loop_eq (T : Nat → Bool) (cs : List Object) :
    polymorphic_objects_loop T cs = cs.flatMap (fun c => c.polymorphic_objects T true) := by
  induction cs with
  | nil => simp [polymorphic_objects_loop]
  | cons c cs ih => rw [polymorphic_objects_loop, ih, List.flatMap_cons]

theorem Object.polymorphic_objects_eq (T : Nat → Bool) (recursive : Bool) (o : Object) :
    o.polymorphic_objects T recursive =
      o.children_.filter (fun c => T c.cls) ++
        (if recursive = true then polymorphic_objects_loop T o.children_ else []) := by
  cases o
  rw [Object.polymorphic_objects]
  rfl

mutual
/-- The recursive result of `polymorphic_objects` lists the proper descendants
that can be cast to T, each as often as it is a descendant. -/
theorem Object.polymorphic_perm (T : Nat → Bool) : ∀ o : Object,
    (o.polymorphic_objects T true).Perm (o.descendants.filter (fun d => T d.cls))
  | .mk a i c children => by
    have h := polymorphic_loop_perm T children
    rw [Object.polymorphic_objects, Object.descendants]
    simp only [if_true]
    exact h
/-- The castable children of a list followed by the recursive results of the
children list the castable objects among the children and their descendants. -/
theorem polymorphic_loop_perm (T : Nat → Bool) : ∀ cs : List Object,
    (cs.filter (fun d => T d.cls) ++ polymorphic_objects_loop T cs).Perm
      ((descendantsOfList cs).filter (fun d => T d.cls))
  | [] => by
    simp [polymorphic_objects_loop, descendantsOfList]
  | object :: rest => by
    have h1 := Object.polymorphic_perm T object
    have h2 := polymorphic_loop_perm T rest
    rw [polymorphic_objects_loop, descendantsOfList]
    have e1 : (object :: rest).filter (fun d => T d.cls) =
        [object].filter (fun d => T d.cls) ++ rest.filter (fun d => T d.cls) := by
      rw [← List.filter_append]
      rfl
    have e2 : (object :: (object.descendants ++ descendantsOfList rest)).filter
        (fun d => T d.cls) =
        [object].filter (fun d => T d.cls) ++ (object.descendants.filter (fun d => T d.cls) ++
          (descendantsOfList rest).filter (fun d => T d.cls)) := by
      rw [← List.filter_append, ← List.filter_append]
      rfl
    rw [e1, e2, List.append_assoc]
    apply List.Perm.append_left
    exact (List.perm_append_comm_assoc _ _ _).trans (List.Perm.append h1 h2)
end

/-- C19: for every object o whose child hierarchy is a tree,
`o.polymorphic_objects<T>(true)` returns the castable direct children in child
order followed by each child's recursive result in child order, which are
exactly the proper descendants of o that can be cast to T, each exactly once;
with recursive = false it returns exactly the direct children castable to T in
child order. -/
theorem C19_polymorphic_objects (T : Nat → Bool) (o : Object)
    (htree : (o.descendants.map Object.addr).Nodup) :
    o.polymorphic_objects T false = o.children_.filter (fun c => T c.cls) ∧
    o.polymorphic_objects T true =
      o.children_.filter (fun c => T c.cls) ++
        o.children_.flatMap (fun c => c.polymorphic_objects T true) ∧
    (o.polymorphic_objects T true).Perm (o.descendants.filter (fun d => T d.cls)) ∧
    ((o.polymorphic_objects T true).map Object.addr).Nodup ∧
    (∀ d, d ∈ o.polymorphic_objects T true ↔ d ∈ o.descendants ∧ T d.cls = true) := by
  have hperm := Object.polymorphic_perm T o
  refine ⟨?_, ?_, hperm, ?_, ?_⟩
  · rw [Object.polymorphic_objects_eq]
    simp
  · rw [Object.polymorphic_objects_eq, polymorphic_objects_loop_eq]
    simp
  · have hsub : ((o.descendants.filter (fun d => T d.cls)).map Object.addr).Sublist
        (o.descendants.map Object.addr) := List.Sublist.map _ (List.filter_sublist _)
    exact (List.Perm.nodup_iff (hperm.map Object.addr)).mpr (htree.sublist hsub)
  · intro d
    rw [hperm.mem_iff, List.mem_filter]

/-- A witness for C19: in the sample model, whose objects are all different,
the failures below the root are the objects 2 and 4, and the nodes among the
children of the root are the objects 1 and 3. -/
theorem C19_polymorphic_objects_witness :
    (sampleModel.descendants.map Object.addr).Nodup ∧
    (sampleModel.polymorphic_objects isFailure true).map Object.addr = [2, 4] ∧
    (sampleModel.polymorphic_objects (fun c => c == 2) false).map Object.addr = [1, 3] ∧
    (sampleModel.polymorphic_objects isFailure false).map Object.addr = [] ∧
    ((sampleModel.polymorphic_objects isFailure true).map Object.addr).Nodup :=
  ⟨by decide, by decide, by decide, by decide,
   (C19_polymorphic_objects isFailure sampleModel (by decide)).2.2.2.1⟩

mutual
/-- What the recursive `find_parent` returns: an ancestor of type T, and nullptr
only when no ancestor is of type T. -/
theorem ObjectUp.find_parent_spec (T : Nat → Bool) : ∀ o : ObjectUp,
    (∀ t, o.find_parent T true = some t → t ∈ o.ancestors ∧ T t.cls = true) ∧
    (o.find_parent T true = none → ∀ a ∈ o.ancestors, T a.cls = false)
  | .mk a c parents => by
    have h := find_parent_loop_spec T parents
    rw [ObjectUp.find_parent, ObjectUp.ancestors]
    cases hfirst : parents.find? (fun parent => T parent.cls) with
    | some t =>
      simp only
      constructor
      · intro r hr
        cases hr
        have hmem := List.mem_of_find?_eq_some hfirst
        have hT := List.find?_some hfirst
        exact ⟨h.2.2 t hmem, hT⟩
      · intro hr
        cases hr
    | none =>
      simp only [if_true]
      have hnone : ∀ p ∈ parents, T p.cls = false := by
        intro p hp
        have := List.find?_eq_none.mp hfirst p hp
        simpa using this
      exact ⟨h.1, fun hr => h.2.1 hr hnone⟩
/-- What the second loop of `find_parent` returns from a list of parents. -/
theorem find_parent_loop_spec (T : Nat → Bool) : ∀ ps : List ObjectUp,
    (∀ t, find_parent_loop T ps = some t → t ∈ ancestorsOfList ps ∧ T t.cls = true) ∧
    (find_parent_loop T ps = none → (∀ p ∈ ps, T p.cls = false) →
      ∀ a ∈ ancestorsOfList ps, T a.cls = false) ∧
    (∀ p ∈ ps, p ∈ ancestorsOfList ps)
  | [] => by
    refine ⟨?_, ?_, ?_⟩
    · intro t h
      simp [find_parent_loop] at h
    · intro _ _ a ha
      simp [ancestorsOfList] at ha
    · intro p hp
      cases hp
  | parent :: rest => by
    have h1 := ObjectUp.find_parent_spec T parent
    have h2 := find_parent_loop_spec T rest
    rw [find_parent_loop, ancestorsOfList]
    refine ⟨?_, ?_, ?_⟩
    · cases hfind : ObjectUp.find_parent T true parent with
      | some t =>
        simp only
        intro r hr
        cases hr
        obtain ⟨ht1, ht2⟩ := h1.1 t hfind
        exact ⟨List.mem_cons_of_mem _ (List.mem_append_left _ ht1), ht2⟩
      | none =>
        simp only
        intro r hr
        obtain ⟨hr1, hr2⟩ := h2.1 r hr
        exact ⟨List.mem_cons_of_mem _ (List.mem_append_right _ hr1), hr2⟩
    · cases hfind : ObjectUp.find_parent T true parent with
      | some t =>
        simp only
        intro hr
        cases hr
      | none =>
        simp only
        intro hr hps a ha
        rcases List.mem_cons.mp ha with rfl | ha
        · exact hps a (List.mem_cons_self _ _)
        · rcases List.mem_append.mp ha with ha | ha
          · exact h1.2 hfind a ha
          · exact h2.2.1 hr (fun p hp => hps p (List.mem_cons_of_mem _ hp)) a ha
    · intro p hp
      rcases List.mem_cons.mp hp with rfl | hp
      · exact List.mem_cons_self _ _
      · exact List.mem_cons_of_mem _ (List.mem_append_right _ (h2.2.2 p hp))
end


/-- C20 (the code at the failing input): the failure `twoParents` has the
parents 1 and 4, neither a component; `find_parent<Component>(true)` descends
into the first parent and returns the component 3, reached by 3 parent links,
although the component 5 is reached by 2 parent links through the second
parent. -/
theorem C20_find_parent_not_closest :
    (twoParents.find_parent isComponent true).map ObjectUp.addr = some 3 ∧
    (ancestorsAt 3 twoParents).map ObjectUp.addr = [3] ∧
    ((ancestorsAt 2 twoParents).filter (fun o => isComponent o.cls)).map ObjectUp.addr = [5] ∧
    (ancestorsAt 2 twoParents).map ObjectUp.addr = [2, 5] ∧
    (ancestorsAt 1 twoParents).map ObjectUp.addr = [1, 4] := by
  decide

/-! ### Breakpoints -/

/-- C13: an event matches a breakpoint iff every constraint that is set on the
breakpoint is satisfied by the event: the type name equals the type, the time
is at least the start, the time is at most the stop, the sender equals the
sender and the receiver equals the receiver; a constraint that is set and
cleared again does not count, a constraint that is set counts with the value
set, and a breakpoint with no constraint set matches every event. -/
theorem C13_breakpoint_match {T : Type} [LinearOrder T] (b : Breakpoint T) (e : EventInfo T) :
    (b.is_match e = true ↔
      ((b.has_type_ = true → e.type_ = b.type_) ∧
       (b.has_start_ = true → b.start_ ≤ e.time_) ∧
       (b.has_stop_ = true → e.time_ ≤ b.stop_) ∧
       (b.has_sender_ = true → e.sender_ = b.sender_) ∧
       (b.has_receiver_ = true → e.receiver_ = b.receiver_))) ∧
    (∀ start stop : T, (Breakpoint.new start stop).is_match e = true) ∧
    (∀ (start stop : T) (type : String),
      ((Breakpoint.new start stop).set_type type).is_match e = true ↔ e.type_ = type) ∧
    (∀ (start stop t1 t2 : T),
      (((Breakpoint.new start stop).set_start t1).set_stop t2).is_match e = true ↔
        t1 ≤ e.time_ ∧ e.time_ ≤ t2) ∧
    (∀ (type : String), ((b.set_type type).clear_type).is_match e = (b.clear_type).is_match e) := by
  have hmain : ∀ b : Breakpoint T, (b.is_match e = true ↔
      ((b.has_type_ = true → e.type_ = b.type_) ∧
       (b.has_start_ = true → b.start_ ≤ e.time_) ∧
       (b.has_stop_ = true → e.time_ ≤ b.stop_) ∧
       (b.has_sender_ = true → e.sender_ = b.sender_) ∧
       (b.has_receiver_ = true → e.receiver_ = b.receiver_))) := by
    intro b
    unfold Breakpoint.is_match
    by_cases h1 : b.has_type_ = true ∧ e.type_ ≠ b.type_
    · rw [if_pos h1]
      simp only [Bool.false_eq_true, false_iff, not_and]
      intro h
      exact absurd (h h1.1) h1.2
    rw [if_neg h1]
    by_cases h2 : b.has_start_ = true ∧ e.time_ < b.start_
    · rw [if_pos h2]
      simp only [Bool.false_eq_true, false_iff, not_and]
      intro _ h
      exact absurd (h h2.1) (not_le.mpr h2.2)
    rw [if_neg h2]
    by_cases h3 : b.has_stop_ = true ∧ b.stop_ < e.time_
    · rw [if_pos h3]
      simp only [Bool.false_eq_true, false_iff, not_and]
      intro _ _ h
      exact absurd (h h3.1) (not_le.mpr h3.2)
    rw [if_neg h3]
    by_cases h4 : b.has_sender_ = true ∧ e.sender_ ≠ b.sender_
    · rw [if_pos h4]
      simp only [Bool.false_eq_true, false_iff, not_and]
      intro _ _ _ h
      exact absurd (h h4.1) h4.2
    rw [if_neg h4]
    by_cases h5 : b.has_receiver_ = true ∧ e.receiver_ ≠ b.receiver_
    · rw [if_pos h5]
      simp only [Bool.false_eq_true, false_iff, not_and]
      intro _ _ _ _ h
      exact absurd (h h5.1) h5.2
    rw [if_neg h5]
    simp only [true_iff]
    refine ⟨?_, ?_, ?_, ?_, ?_⟩
    · intro h
      by_contra hne
      exact h1 ⟨h, hne⟩
    · intro h
      by_contra hne
      exact h2 ⟨h, not_le.mp hne⟩
    · intro h
      by_contra hne
      exact h3 ⟨h, not_le.mp hne⟩
    · intro h
      by_contra hne
      exact h4 ⟨h, hne⟩
    · intro h
      by_contra hne
      exact h5 ⟨h, hne⟩
  refine ⟨hmain b, ?_, ?_, ?_, ?_⟩
  · intro start stop
    rw [hmain]
    simp [Breakpoint.new]
  · intro start stop type
    rw [hmain]
    simp [Breakpoint.new, Breakpoint.set_type]
  · intro start stop t1 t2
    rw [hmain]
    simp [Breakpoint.new, Breakpoint.set_start, Breakpoint.set_stop]
  · intro type
    rfl

/-- A run of the check: the sample event matches a breakpoint on out events
from time 5 on, and no breakpoint on out events from time 6 on. -/
theorem check_breakpoints_example :
    (check_breakpoints [((Breakpoint.new 0 0).set_type "EventOut").set_start 5]
      sampleEventInfo).breakpoint_ = true ∧
    (check_breakpoints [((Breakpoint.new 0 0).set_type "EventOut").set_start 6]
      sampleEventInfo).breakpoint_ = false ∧
    (check_breakpoints [Breakpoint.new 0 0] sampleEventInfo).breakpoint_ = true := by
  decide

/-! ### Failures of type PERCENT -/

/-- C11, as stated, fails for a mean time to repair of 0: with availability 1/2
no mean time between failures x, finite, infinite or NaN, gives
0 / (0 + x) = 1 − 1/2 in `double`, and for the mean time between failures 0
that `set_availability_mttr` yields, 0 / (0 + 0) is a NaN. -/
theorem C11_no_mtbf_for_zero_mttr :
    (∀ x : DoubleValue ℚ, (DoubleValue.finite 0).div ((DoubleValue.finite 0).add x) ≠
      (DoubleValue.finite 1).sub (.finite (1 / 2))) ∧
    (blankPercentFailure.set_availability_mttr (.finite (1 / 2)) (.finite 0)).failure_interval_.mean_
      = .finite 0 ∧
    (blankPercentFailure.set_availability_mttr (.finite (1 / 2)) (.finite 0)).unavailability
      = .nan ∧
    (blankPercentFailure.set_availability_mttr (.finite (1 / 2)) (.finite 0)).unavailability ≠
      (DoubleValue.finite 1).sub
        (blankPercentFailure.set_availability_mttr (.finite (1 / 2)) (.finite 0)).availability_ := by
  have hsub : (DoubleValue.finite (1 : ℚ)).sub (.finite (1 / 2)) = .finite (1 / 2) := by
    simp only [DoubleValue.sub, DoubleValue.neg, DoubleValue.add]
    norm_num
  have hmean : (blankPercentFailure.set_availability_mttr (.finite (1 / 2))
      (.finite 0)).failure_interval_.mean_ = .finite 0 := by
    simp only [PercentFailure.set_availability_mttr, mean_time_between_failures,
      DoubleValue.mul, hsub, DoubleValue.div]
    norm_num
  have hun : (blankPercentFailure.set_availability_mttr (.finite (1 / 2))
      (.finite 0)).unavailability = .nan := by
    unfold PercentFailure.unavailability
    rw [hmean]
    simp [PercentFailure.set_availability_mttr, DoubleValue.add, DoubleValue.div,
      DoubleValue.signedInf]
  refine ⟨?_, hmean, hun, ?_⟩
  · intro x
    rw [hsub]
    cases x with
    | finite x =>
      by_cases hx : x = 0
      · simp [DoubleValue.add, DoubleValue.div, DoubleValue.signedInf, hx]
      · simp [DoubleValue.add, DoubleValue.div, hx]
    | posInf => simp [DoubleValue.add, DoubleValue.div]
    | negInf => simp [DoubleValue.add, DoubleValue.div]
    | nan => simp [DoubleValue.add, DoubleValue.div]
  · rw [hun]
    simp [PercentFailure.set_availability_mttr, DoubleValue.sub, DoubleValue.neg,
      DoubleValue.add]

/-- C11, amended: for every failure of type PERCENT configured with an
availability a with 0 < a ≤ 1 and a finite mean time to repair m other than 0,
`set_availability_mttr` yields a mean time between failures MTBF such that
m / (m + MTBF) = 1 − a in `double`, and uses MTBF and m as the means of the
interval and duration generators. For a < 1 the MTBF is m · a / (1 − a),
positive for m > 0; for a = 1 it is infinite. -/
theorem C11_availability_mttr {K : Type} [LinearOrderedField K]
    (f : PercentFailure (DoubleValue K)) (a m : K) (ha0 : 0 < a) (ha1 : a ≤ 1) (hm : m ≠ 0) :
    (a < 1 → mean_time_between_failures (.finite a) (.finite m) = .finite (m * a / (1 - a)) ∧
      (0 < m → 0 < m * a / (1 - a))) ∧
    (a = 1 → (0 < m → mean_time_between_failures (.finite a) (.finite m) = .posInf) ∧
      (m < 0 → mean_time_between_failures (.finite a) (.finite m) = .negInf)) ∧
    (f.set_availability_mttr (.finite a) (.finite m)).unavailability =
      (DoubleValue.finite 1).sub (f.set_availability_mttr (.finite a) (.finite m)).availability_ ∧
    (DoubleValue.finite m).div ((DoubleValue.finite m).add
      (mean_time_between_failures (.finite a) (.finite m))) =
      (DoubleValue.finite 1).sub (.finite a) ∧
    (f.set_availability_mttr (.finite a) (.finite m)).failure_interval_.mean_ =
      mean_time_between_failures (.finite a) (.finite m) ∧
    (f.set_availability_mttr (.finite a) (.finite m)).failure_duration_.mean_ = .finite m ∧
    (f.set_availability_mttr (.finite a) (.finite m)).availability_ = .finite a ∧
    (f.set_availability_mttr (.finite a) (.finite m)).mttr_ = .finite m := by
  have hsub : (DoubleValue.finite (1 : K)).sub (.finite a) = .finite (1 - a) := by
    simp only [DoubleValue.sub, DoubleValue.neg, DoubleValue.add]
    rw [sub_eq_add_neg]
  have hlt : a < 1 → mean_time_between_failures (.finite a) (.finite m) =
      .finite (m * a / (1 - a)) := by
    intro h
    have hne : (1 - a) ≠ 0 := ne_of_gt (sub_pos.mpr h)
    unfold mean_time_between_failures
    rw [hsub]
    simp only [DoubleValue.mul, DoubleValue.div, if_neg hne]
  have hpos : a = 1 → 0 < m → mean_time_between_failures (.finite a) (.finite m) = .posInf := by
    intro h hm0
    unfold mean_time_between_failures
    rw [hsub, h]
    simp [DoubleValue.mul, DoubleValue.div, DoubleValue.signedInf, hm0]
  have hneg : a = 1 → m < 0 → mean_time_between_failures (.finite a) (.finite m) = .negInf := by
    intro h hm0
    unfold mean_time_between_failures
    rw [hsub, h]
    simp [DoubleValue.mul, DoubleValue.div, DoubleValue.signedInf, hm0, not_lt_of_gt hm0]
  have heq : (DoubleValue.finite m).div ((DoubleValue.finite m).add
      (mean_time_between_failures (.finite a) (.finite m))) =
      (DoubleValue.finite 1).sub (.finite a) := by
    rw [hsub]
    rcases lt_or_eq_of_le ha1 with h | h
    · have h1 : 0 < 1 - a := sub_pos.mpr h
      have hne : (1 - a) ≠ 0 := ne_of_gt h1
      have hsum : m + m * a / (1 - a) = m / (1 - a) := by
        field_simp
        ring
      have hsum0 : m + m * a / (1 - a) ≠ 0 := by
        rw [hsum]
        exact div_ne_zero hm hne
      rw [hlt h]
      simp only [DoubleValue.add, DoubleValue.div, if_neg hsum0]
      rw [hsum, div_div_eq_mul_div, mul_comm, mul_div_assoc, div_self hm, mul_one]
    · rcases lt_or_gt_of_ne hm with hm0 | hm0
      · rw [hneg h hm0, h]
        simp [DoubleValue.add, DoubleValue.div]
      · rw [hpos h hm0, h]
        simp [DoubleValue.add, DoubleValue.div]
  refine ⟨?_, fun h => ⟨hpos h, hneg h⟩, heq, heq, rfl, rfl, rfl, rfl⟩
  intro h
  exact ⟨hlt h, fun hm0 => div_pos (mul_pos hm0 ha0) (sub_pos.mpr h)⟩

/-- A witness for C11, amended: availability 1 and a mean time to repair of 60
give an infinite mean time between failures, for which 60 / (60 + MTBF) is 0;
availability 9/10 and a mean time to repair of 60 give a mean time between
failures of 540. -/
theorem C11_availability_mttr_witness :
    ((0 : ℚ) < 1 ∧ (1 : ℚ) ≤ 1 ∧ (60 : ℚ) ≠ 0) ∧
    mean_time_between_failures (.finite (1 : ℚ)) (.finite 60) = .posInf ∧
    mean_time_between_failures (.finite (9 / 10 : ℚ)) (.finite 60) = .finite 540 ∧
    (blankPercentFailure.set_availability_mttr (.finite 1) (.finite 60)).unavailability =
      .finite 0 ∧
    (blankPercentFailure.set_availability_mttr (.finite 1) (.finite 60)).unavailability =
      (DoubleValue.finite 1).sub
        (blankPercentFailure.set_availability_mttr (.finite 1) (.finite 60)).availability_ :=
  have h := C11_availability_mttr blankPercentFailure (1 : ℚ) 60 (by norm_num) (by norm_num)
    (by norm_num)
  have h9 := C11_availability_mttr blankPercentFailure (9 / 10 : ℚ) 60 (by norm_num)
    (by norm_num) (by norm_num)
  ⟨by norm_num, (h.2.1 rfl).1 (by norm_num),
   by rw [(h9.1 (by norm_num)).1]; norm_num,
   by rw [h.2.2.1]; simp [PercentFailure.set_availability_mttr, DoubleValue.sub,
     DoubleValue.neg, DoubleValue.add],
   h.2.2.1⟩

/-! ### The occupation of a node -/

theorem NodeOccupation.exec_keeps_bounds (n : NodeOccupation) (c : NodeCall)
    (h : n.content_.length ≤ n.max_occupied_ ∧ n.min_occupied_ ≤ n.content_.length) :
    (n.exec c).content_.length ≤ (n.exec c).max_occupied_ ∧
    (n.exec c).min_occupied_ ≤ (n.exec c).content_.length := by
  obtain ⟨h1, h2⟩ := h
  cases c with
  | enter e =>
    simp only [NodeOccupation.exec, NodeOccupation.enter, List.length_append,
      List.length_singleton]
    exact ⟨le_max_right _ _, by omega⟩
  | leave e =>
    simp only [NodeOccupation.exec, NodeOccupation.leave]
    have hle : (n.content_.erase e).length ≤ n.content_.length := List.length_erase_le _ _
    exact ⟨by omega, min_le_right _ _⟩
  | reset_stats =>
    simp only [NodeOccupation.exec, NodeOccupation.reset_stats]
    exact ⟨le_refl _, le_refl _⟩

/-- C12: for every node and every state reached from the initial one by
entities entering and leaving and by statistics resets,
content_size() ≤ max_occupation(); and min_occupation() ≤ content_size(). -/
theorem C12_content_size_le_max_occupation (calls : List NodeCall) :
    (NodeOccupation.reached calls).content_size ≤ (NodeOccupation.reached calls).max_occupation ∧
    (NodeOccupation.reached calls).min_occupation ≤ (NodeOccupation.reached calls).content_size := by
  have hgen : ∀ (cs : List NodeCall) (n : NodeOccupation),
      (n.content_.length ≤ n.max_occupied_ ∧ n.min_occupied_ ≤ n.content_.length) →
      ((cs.foldl NodeOccupation.exec n).content_.length ≤
          (cs.foldl NodeOccupation.exec n).max_occupied_ ∧
        (cs.foldl NodeOccupation.exec n).min_occupied_ ≤
          (cs.foldl NodeOccupation.exec n).content_.length) := by
    intro cs
    induction cs with
    | nil => intro n h; exact h
    | cons c cs ih =>
      intro n h
      rw [List.foldl_cons]
      exact ih _ (NodeOccupation.exec_keeps_bounds n c h)
  exact hgen calls NodeOccupation.init ⟨le_refl _, le_refl _⟩

/-- A run of a node: two entities enter, one leaves, the statistics are reset
and another entity enters; the node has 2 entities and a maximum occupation of
2. -/
theorem node_occupation_example :
    (NodeOccupation.reached [.enter 1, .enter 2, .leave 1, .reset_stats, .enter 3]).content_size
      = 2 ∧
    (NodeOccupation.reached [.enter 1, .enter 2, .leave 1, .reset_stats, .enter 3]).max_occupation
      = 2 ∧
    (NodeOccupation.reached [.enter 1, .enter 2, .leave 1]).max_occupation = 2 ∧
    (NodeOccupation.reached [.enter 1, .enter 2, .leave 1]).content_size = 1 := by
  decide

/-! ### Out events of unblocked entities -/

theorem Pending.key_lt_iff {T : Type} [LinearOrder T] (a b : Pending T) :
    a.key < b.key ↔
      a.evt.time_ < b.evt.time_ ∨ (a.evt.time_ = b.evt.time_ ∧
        (a.evt.priority_ < b.evt.priority_ ∨ (a.evt.priority_ = b.evt.priority_ ∧
          (a.evt.sub_priority_ < b.evt.sub_priority_ ∨
            (a.evt.sub_priority_ = b.evt.sub_priority_ ∧ a.seq < b.seq))))) := by
  unfold Pending.key
  rw [Prod.Lex.lt_iff]
  simp only [ofLex_toLex]
  rw [Prod.Lex.lt_iff]
  simp only [ofLex_toLex]
  rw [Prod.Lex.lt_iff]

/-- C21, amended: PRIORITY_OUT_UNBLOCKED < PRIORITY_OUT; of two out events for
the same simulation time the one with priority OUT_UNBLOCKED occurs before the
one with priority OUT; and in every run of the event loop in which the events
are enqueued with `schedule`, no event with priority OUT is popped while an
event with priority OUT_UNBLOCKED for the same time is pending: of events that
are pending together, the one with priority OUT_UNBLOCKED is processed
first. -/
theorem C21_out_unblocked_precedes_out {T : Type} [LinearOrder T] [Add T] [Zero T]
    (calls : List (ScheduleCall T))
    (process : Event T → Simulation T → List (ScheduleCall T)) (n : Nat)
    (hcalls : ∀ c ∈ calls, c.isSchedule = true)
    (hproc : ∀ e s, ∀ c ∈ process e s, c.isSchedule = true) :
    PRIORITY_OUT_UNBLOCKED < PRIORITY_OUT ∧
    (∀ (t : T) (i j : Nat),
      (EventOut.withPriority i PRIORITY_OUT_UNBLOCKED t).occursBefore
        (EventOut.withPriority j PRIORITY_OUT t) ∧
      ¬ (EventOut.withPriority j PRIORITY_OUT t).occursBefore
        (EventOut.withPriority i PRIORITY_OUT_UNBLOCKED t)) ∧
    (∀ pop ∈ Simulation.simulate process n (Simulation.setup calls), ∀ q ∈ pop.2,
      q.evt.time_ = pop.1.evt.time_ → q.evt.priority_ = PRIORITY_OUT_UNBLOCKED →
      pop.1.evt.priority_ ≠ PRIORITY_OUT) := by
  refine ⟨by decide, ?_, ?_⟩
  · intro t i j
    constructor
    · right
      refine ⟨rfl, ?_⟩
      show PRIORITY_OUT_UNBLOCKED < PRIORITY_OUT
      decide
    · rintro (h | ⟨_, h⟩)
      · exact lt_irrefl _ h
      · have h' : PRIORITY_OUT < PRIORITY_OUT_UNBLOCKED := h
        exact absurd h' (by decide)
  · intro pop hpop q hq htime hprio hout
    have hinit : QueueSorted (Simulation.setup calls) := by
      unfold Simulation.setup
      apply exec_schedules_sorted _ _ hcalls
      exact ⟨by simp [Simulation.init], by simp [Simulation.init]⟩
    have hlt := simulate_pops_least process hproc n _ hinit pop hpop q hq
    rw [Pending.key_lt_iff] at hlt
    rcases hlt with h | ⟨_, h⟩
    · rw [htime] at h
      exact lt_irrefl _ h
    · rw [hprio, hout] at h
      rcases h with h | ⟨h, _⟩
      · exact absurd h (by decide)
      · exact absurd h (by decide)

/-- A witness for C21, amended: run E, in which the out events with priority
OUT_UNBLOCKED, the events 3 and 4, are popped before the out events 1 and 2
with priority OUT for the same time. -/
theorem C21_out_unblocked_precedes_out_witness :
    (∀ c ∈ runECalls, c.isSchedule = true) ∧
    (∀ e s, ∀ c ∈ runEProcess e s, c.isSchedule = true) ∧
    (Simulation.simulate runEProcess 9 (Simulation.setup runECalls)).map
      (fun p => (p.1.evt.id, p.1.evt.time_, p.1.evt.priority_)) =
      [(3, 0, 2), (4, 0, 2), (1, 0, 5), (2, 0, 5)] ∧
    (∀ pop ∈ Simulation.simulate runEProcess 9 (Simulation.setup runECalls), ∀ q ∈ pop.2,
      q.evt.time_ = pop.1.evt.time_ → q.evt.priority_ = PRIORITY_OUT_UNBLOCKED →
      pop.1.evt.priority_ ≠ PRIORITY_OUT) :=
  have h1 : ∀ c ∈ runECalls, c.isSchedule = true := by decide
  have h2 : ∀ e s, ∀ c ∈ runEProcess e s, c.isSchedule = true := by
    intro e s c hc
    unfold runEProcess at hc
    split at hc
    · simp only [List.mem_singleton] at hc
      rw [hc]
      rfl
    · simp at hc
  ⟨h1, h2, by decide, (C21_out_unblocked_precedes_out runECalls runEProcess 9 h1 h2).2.2⟩

/-! ### Connecting to a priority signal -/

theorem lookup_replace_self (m : List (Int × List Nat)) (p : Int) (b : List Nat)
    (h : m.any (fun kv => kv.1 == p) = true) :
    (m.map (fun kv => if kv.1 = p then (p, b) else kv)).lookup p = some b := by
  induction m with
  | nil => simp at h
  | cons kv m ih =>
    obtain ⟨k, v⟩ := kv
    by_cases hk : k = p
    · subst hk
      simp [List.lookup_cons]
    · have hm : m.any (fun kv => kv.1 == p) = true := by
        simpa [hk] using h
      have hpk : (p == k) = false := by
        simp only [beq_eq_false_iff_ne, ne_eq]
        exact fun e => hk e.symm
      rw [List.map_cons]
      simp only [hk, if_false]
      rw [List.lookup_cons, hpk]
      exact ih hm

theorem lookup_replace_ne (m : List (Int × List Nat)) (p q : Int) (b : List Nat)
    (h : q ≠ p) :
    (m.map (fun kv => if kv.1 = p then (p, b) else kv)).lookup q = m.lookup q := by
  induction m with
  | nil => rfl
  | cons kv m ih =>
    obtain ⟨k, v⟩ := kv
    have hqp : (q == p) = false := by
      simp only [beq_eq_false_iff_ne, ne_eq]
      exact h
    by_cases hk : k = p
    · subst hk
      rw [List.map_cons]
      simp only [if_true]
      rw [List.lookup_cons, List.lookup_cons, hqp]
      exact ih
    · rw [List.map_cons]
      simp only [hk, if_false]
      rw [List.lookup_cons, List.lookup_cons, ih]

theorem lookup_append_new_self (m : List (Int × List Nat)) (p : Int) (b : List Nat)
    (h : m.any (fun kv => kv.1 == p) = false) :
    (m ++ [(p, b)]).lookup p = some b := by
  induction m with
  | nil => simp [List.lookup_cons]
  | cons kv m ih =>
    obtain ⟨k, v⟩ := kv
    rw [List.any_cons, Bool.or_eq_false_iff] at h
    have hk : k ≠ p := by
      simpa using h.1
    have hpk : (p == k) = false := by
      simp only [beq_eq_false_iff_ne, ne_eq]
      exact fun e => hk e.symm
    rw [List.cons_append, List.lookup_cons, hpk]
    exact ih h.2

theorem lookup_append_new_ne (m : List (Int × List Nat)) (p q : Int) (b : List Nat)
    (h : q ≠ p) :
    (m ++ [(p, b)]).lookup q = m.lookup q := by
  have hqp : (q == p) = false := by
    simp only [beq_eq_false_iff_ne, ne_eq]
    exact h
  induction m with
  | nil => simp [List.lookup_cons, hqp]
  | cons kv m ih =>
    obtain ⟨k, v⟩ := kv
    rw [List.cons_append, List.lookup_cons, List.lookup_cons, ih]

/-- After `signals_[p] = b` the bucket of priority p is b. -/
theorem bucketAt_setBucket_self (m : List (Int × List Nat)) (p : Int) (b : List Nat) :
    bucketAt (setBucket m p b) p = b := by
  unfold bucketAt setBucket
  cases h : m.any (fun kv => kv.1 == p) with
  | true => simp only [if_true]; rw [lookup_replace_self m p b h]; rfl
  | false =>
    simp only [Bool.false_eq_true, if_false]
    rw [lookup_append_new_self m p b h]
    rfl

/-- The assignment `signals_[p] = b` leaves every other bucket as it is. -/
theorem bucketAt_setBucket_ne (m : List (Int × List Nat)) (p q : Int) (b : List Nat)
    (h : q ≠ p) : bucketAt (setBucket m p b) q = bucketAt m q := by
  unfold bucketAt setBucket
  cases h' : m.any (fun kv => kv.1 == p) with
  | true => simp only [if_true]; rw [lookup_replace_ne m p q b h]
  | false =>
    simp only [Bool.false_eq_true, if_false]
    rw [lookup_append_new_ne m p q b h]

/-- The flag `firing_` stays set through the loop of `fire`. -/
theorem fireLoop_firing (beh : Nat → PrioritySignal → List SignalAction) :
    ∀ (n : Nat) (s : PrioritySignal) (visited : Option Int) (log : List (Int × List Nat)),
      (fireLoop beh n s visited log).1.firing_ = s.firing_ := by
  intro n
  induction n with
  | zero => intro s visited log; rfl
  | succ n ih =>
    intro s visited log
    unfold fireLoop
    cases hk : nextKey s.signals_ visited with
    | none => rfl
    | some k =>
      simp only
      rw [ih]
      exact (fireBucket_firing beh _ _).1

/-- C22: `connect(h, p)` returns false exactly when `firing_` is set and p is at
most `current_priority_`, the priority of the bucket being fired; a call that
returns false leaves the signal as it is; a call that returns true appends h to
bucket p and changes no other bucket. `firing_` is clear in a new signal and
after every `fire()` and is set through the loop of `fire()`, so that outside
`fire()`, also after a completed `fire()`, connect returns true and the handler
is in bucket p. -/
theorem C22_connect_result (beh : Nat → PrioritySignal → List SignalAction)
    (s : PrioritySignal) (h : Nat) (p : Int) :
    ((s.connect h p).1 = false ↔ (s.firing_ = true ∧ p ≤ s.current_priority_)) ∧
    ((s.connect h p).1 = false → (s.connect h p).2 = s) ∧
    ((s.connect h p).1 = true →
      bucketAt (s.connect h p).2.signals_ p = bucketAt s.signals_ p ++ [h] ∧
      (∀ q, q ≠ p → bucketAt (s.connect h p).2.signals_ q = bucketAt s.signals_ q) ∧
      (s.connect h p).2.firing_ = s.firing_ ∧
      (s.connect h p).2.current_priority_ = s.current_priority_) ∧
    (s.firing_ = false →
      (s.connect h p).1 = true ∧ h ∈ bucketAt (s.connect h p).2.signals_ p) ∧
    PrioritySignal.new.firing_ = false ∧
    (∀ (n : Nat) (v : Option Int) (log : List (Int × List Nat)),
      (fireLoop beh n { s with firing_ := true } v log).1.firing_ = true) ∧
    (s.fire beh).1.firing_ = false ∧
    ((s.fire beh).1.connect h p).1 = true ∧
    h ∈ bucketAt ((s.fire beh).1.connect h p).2.signals_ p := by
  have hreg : ∀ st : PrioritySignal, st.firing_ = false →
      (st.connect h p).1 = true ∧ h ∈ bucketAt (st.connect h p).2.signals_ p := by
    intro st hst
    have e : st.connect h p =
        (true, { st with
          signals_ := setBucket st.signals_ p (bucketAt st.signals_ p ++ [h]) }) := by
      simp [PrioritySignal.connect, hst]
    rw [e]
    refine ⟨rfl, ?_⟩
    show h ∈ bucketAt (setBucket st.signals_ p (bucketAt st.signals_ p ++ [h])) p
    rw [bucketAt_setBucket_self]
    simp
  refine ⟨?_, ?_, ?_, hreg s, rfl, ?_, rfl, hreg _ rfl⟩
  · unfold PrioritySignal.connect
    split
    · rename_i hc
      simp [hc]
    · rename_i hc
      simp only [Bool.true_eq_false, false_iff]
      exact hc
  · unfold PrioritySignal.connect
    split
    · intro _; rfl
    · intro hc
      simp at hc
  · unfold PrioritySignal.connect
    split
    · intro hc
      simp at hc
    · intro _
      refine ⟨?_, ?_, rfl, rfl⟩
      · show bucketAt (setBucket s.signals_ p (bucketAt s.signals_ p ++ [h])) p = _
        rw [bucketAt_setBucket_self]
      · intro q hq
        show bucketAt (setBucket s.signals_ p (bucketAt s.signals_ p ++ [h])) q = _
        rw [bucketAt_setBucket_ne _ _ _ _ hq]
  · intro n v log
    rw [fireLoop_firing]

/-- A witness for C22: in the signal that is firing priority 5, a connect at
priority 2 or 5 returns false and changes nothing, a connect at priority 6
returns true and creates bucket 6; after the fire of the signal with handler 7 at
priority 2 and handler 0 at priority 5 a connect at priority 2 returns true
and handler 1 is in bucket 2 behind handler 7. -/
theorem C22_connect_result_witness :
    lateSignalFiring.firing_ = true ∧ lateSignalFiring.current_priority_ = 5 ∧
    lateSignalFiring.connect 1 2 = (false, lateSignalFiring) ∧
    lateSignalFiring.connect 1 5 = (false, lateSignalFiring) ∧
    (lateSignalFiring.connect 1 6).1 = true ∧
    bucketAt (lateSignalFiring.connect 1 6).2.signals_ 6 = [1] ∧
    (((lateSignalB.fire lateBehB).1.connect 1 2).1 = true ∧
      bucketAt ((lateSignalB.fire lateBehB).1.connect 1 2).2.signals_ 2 = [7, 1]) ∧
    ((lateSignalFiring.connect 1 2).1 = false ↔
      (lateSignalFiring.firing_ = true ∧ 2 ≤ lateSignalFiring.current_priority_)) :=
  ⟨by decide, by decide, by decide, by decide, by decide, by decide, by decide,
   (C22_connect_result lateBehB lateSignalFiring 1 2).1⟩

/-! ### A handler connected above the priority being fired -/

/-- C21, as stated, fails: in run F the out event 1 with priority OUT for time
0 is popped first and, while it is processed, the out event 2 with priority
OUT_UNBLOCKED is scheduled for the same time 0. Event 2 is popped after event
1, so it does not precede every out event with priority OUT of its time; it
does precede the out event 3, which was pending with it. -/
theorem C21_out_popped_before_unblocked :
    (∀ c ∈ runFCalls, c.isSchedule = true) ∧
    (Simulation.simulate runFProcess 9 (Simulation.setup runFCalls)).map
      (fun p => (p.1.evt.id, p.1.evt.time_, p.1.evt.priority_)) =
      [(1, 0, 5), (2, 0, 2), (3, 0, 5)] ∧
    PRIORITY_OUT = 5 ∧ PRIORITY_OUT_UNBLOCKED = 2 := by
  decide

/-! ### The handlers a fire invokes -/

end xsim
